import Mathlib

/-!
Verification of the FaceIt expression-timeline logic.

This file is a shallow embedding of `src/animate/animate_operators.py`
(together with the expression-item property group declared in
`src/properties/animate_scene_properties.py`) of the FaceIt Blender
add-on, and proofs about the embedded operations.

Modelling conventions:
* Python strings are `List Char` (`PyStr`); `in`, `endswith`, `replace`
  and `lower` are transcribed below.
* Blender keyframes carry a frame and a value (`key.co`).  Both are
  modelled as `Int`: every frame computation appearing in the code under
  scrutiny is integral (the one division in the source, `add_frame / 2`
  with `add_frame = ±10`, is exact), and keyframe values are only ever
  stored or compared against the literals 0 and 1.
* The Blender scene is an explicit state record holding the parts of the
  scene the operators read and write (expression list, list index, the
  three named actions, frame range, current frame, auto-key flag).
* `bpy` operator `execute` methods become state-transformer functions
  returning an operator result together with the new state.
-/

namespace FaceIt

/-- Python string, modelled as its list of characters. -/
abbrev PyStr := List Char

/-- Characters of a Lean string literal; used to transcribe Python string
literals. -/
def lit (s : String) : PyStr := s.toList

/-- Python `str.lower()` (the add-on only feeds it ASCII names). -/
def pyLower (s : PyStr) : PyStr := s.map Char.toLower

/-- Python `needle in hay` on strings: contiguous substring test. -/
def pyIn (needle hay : PyStr) : Bool := decide (needle <:+: hay)

/-- Python `s.endswith(t)`. -/
def pyEndsWith (s t : PyStr) : Bool := decide (t <:+ s)

/-- Python `s.replace(old, new)`: replaces non-overlapping occurrences of
`old`, scanning left to right. -/
def pyReplace (old new : PyStr) : PyStr → PyStr
  | [] => []
  | c :: cs =>
    if old ≠ [] ∧ old <+: (c :: cs) then
      new ++ pyReplace old new (cs.drop (old.length - 1))
    else
      c :: pyReplace old new cs
termination_by s => s.length
decreasing_by
  · simp only [List.length_cons, List.length_drop]
    omega
  · simp

/-- Condition under which `get_side` (animate_operators.py:30) answers
`'L'`; `poll_side_in_expression_name` repeats it verbatim for side `'L'`. -/
def left_condition (expression_name : PyStr) : Bool :=
  pyIn (lit "left") (pyLower expression_name) ||
  pyEndsWith (pyLower expression_name) (lit "_l") ||
  pyEndsWith expression_name (lit "L")

/-- Condition under which `get_side` (animate_operators.py:32) answers
`'R'`; `poll_side_in_expression_name` repeats it verbatim for side `'R'`. -/
def right_condition (expression_name : PyStr) : Bool :=
  pyIn (lit "right") (pyLower expression_name) ||
  pyEndsWith (pyLower expression_name) (lit "_r") ||
  pyEndsWith expression_name (lit "R")

/-- Transcription of `get_side` (animate_operators.py:28-35): return the
side L/N/R for the given expression name (Python returns the one-character
strings `'L'`, `'R'`, `'N'`). -/
def get_side (expression_name : PyStr) : PyStr :=
  if left_condition expression_name then lit "L"
  else if right_condition expression_name then lit "R"
  else lit "N"

/-- Transcription of `poll_side_in_expression_name`
(animate_operators.py:38-44): check if the correct side is in the
expression name. -/
def poll_side_in_expression_name (side : PyStr) (expression_name : PyStr) : Bool :=
  if side = lit "L" then left_condition expression_name
  else if side = lit "R" then right_condition expression_name
  else false

/-- Transcription of `get_mirror_name` (animate_operators.py:47-82):
return the mirror name for the given expression name and side (the empty
string when no rule applies). -/
def get_mirror_name (side : PyStr) (expression_name : PyStr) : PyStr :=
  if side = lit "L" then
    if pyIn (lit "Left") expression_name then
      pyReplace (lit "Left") (lit "Right") expression_name
    else if pyIn (lit "left") expression_name then
      pyReplace (lit "left") (lit "right") expression_name
    else if pyIn (lit "LEFT") expression_name then
      pyReplace (lit "LEFT") (lit "RIGHT") expression_name
    else if pyEndsWith (pyLower expression_name) (lit "_l") then
      if (expression_name.getLastD ' ').isLower then
        expression_name.dropLast ++ lit "r"
      else
        expression_name.dropLast ++ lit "R"
    else if pyEndsWith expression_name (lit "L") then
      expression_name.dropLast ++ lit "R"
    else []
  else if side = lit "R" then
    if pyIn (lit "Right") expression_name then
      pyReplace (lit "Right") (lit "Left") expression_name
    else if pyIn (lit "right") expression_name then
      pyReplace (lit "right") (lit "left") expression_name
    else if pyIn (lit "RIGHT") expression_name then
      pyReplace (lit "RIGHT") (lit "LEFT") expression_name
    else if pyEndsWith (pyLower expression_name) (lit "_r") then
      if (expression_name.getLastD ' ').isLower then
        expression_name.dropLast ++ lit "l"
      else
        expression_name.dropLast ++ lit "L"
    else if pyEndsWith expression_name (lit "R") then
      expression_name.dropLast ++ lit "L"
    else []
  else []

/-- Blender keyframe: the two components of `key.co` (frame, value).  Both
are floats in Blender; all claim-relevant computations are integral, so
the embedding uses `Int` (see the header). -/
@[ext]
structure Keyframe where
  frame : Int
  value : Int
  deriving DecidableEq

/-- Blender fcurve: data path, array index and keyframe points. -/
structure FCurve where
  data_path : PyStr
  array_index : Nat
  keyframe_points : List Keyframe
  deriving DecidableEq

/-- Blender action: a list of fcurves. -/
structure Action where
  fcurves : List FCurve
  deriving DecidableEq

/-- Expression item (`Anim_Properties` in
properties/animate_scene_properties.py): `name`, `side` and `mirror_name`
are StringProperty, `frame` an IntProperty, `procedural` an EnumProperty
with values NONE / EYEBLINKS / MOUTHCLOSE (stored as its identifier
string).  The `index` and `corr_shape_key` fields of the property group
are never touched by the operators embedded here and are omitted. -/
structure ExpressionItem where
  name : PyStr
  side : PyStr
  frame : Int
  mirror_name : PyStr
  procedural : PyStr
  deriving DecidableEq

/-- The scene state the embedded operators read and write: the expression
list and its active index, the scene frame range and current frame, the
auto-keying tool setting, and the four actions the code looks up
(`faceit_shape_action`, `overwrite_shape_action`, the corrective
shape-key action, and the rig's active action
`rig.animation_data.action`).  Host-side data the operators touch only
through `bpy.ops` (pose bones, object modes, selections, armature layers)
is outside the model. -/
structure SceneState where
  expression_list : List ExpressionItem
  expression_list_index : Int
  frame_start : Int
  frame_end : Int
  frame_current : Int
  use_keyframe_insert_auto : Bool
  shape_action : Option Action
  ow_action : Option Action
  cc_action : Option Action
  rig_action : Option Action
  deriving DecidableEq

/-- Result of a Blender operator `execute`: the returned set, or `RAISED`
when a Python exception escapes (e.g. an out-of-range collection index). -/
inductive OpResult where
  | FINISHED
  | CANCELLED
  | RAISED
  deriving DecidableEq

/-- Host data that the operators consult but do not own: the rig's pose
bone names, `os.path.isfile`, and the rig/eye dimensions used by the
exporter. -/
structure Env where
  rig_bones : List PyStr
  isfile : PyStr → Bool
  rig_dimensions : List Int
  eye_dimensions : List Int

/-- Python `for key in collection: if key.co[0] == frame:
collection.remove(key)` (animate_operators.py:1402-1404).  Iterating a
`bpy_prop_collection` by index while removing makes the element after a
removed one slide into its slot and get skipped; this function reproduces
that index-based traversal exactly. -/
def removeKeyframesAtLoop (frame : Int) (kps : List Keyframe) (i : Nat) : List Keyframe :=
  if h : i < kps.length then
    if (kps.get ⟨i, h⟩).frame = frame then
      removeKeyframesAtLoop frame (kps.eraseIdx i) (i + 1)
    else
      removeKeyframesAtLoop frame kps (i + 1)
  else kps
termination_by kps.length - i
decreasing_by
  · rw [List.length_eraseIdx_of_lt h]
    omega
  · omega

/-- The per-action body of `_remove_faceit_item`
(animate_operators.py:1399-1408 and 1410-1419): first remove, in every
fcurve, the keyframes at the removed expression's frame, then shift every
keyframe above that frame back by 10. -/
def removeExpressionKeyframes (frame : Int) (a : Action) : Action :=
  let a1 : List FCurve := a.fcurves.map fun c =>
    { c with keyframe_points := removeKeyframesAtLoop frame c.keyframe_points 0 }
  { fcurves := a1.map fun c =>
      { c with keyframe_points := c.keyframe_points.map fun k =>
          if k.frame > frame then { k with frame := k.frame - 10 } else k } }

/-- Blender `fcurve.keyframe_points.insert(frame, value)`: replaces the
value of an existing keyframe at that frame, otherwise adds a new point.
Host-API model; Blender keeps points sorted by frame, which no claim
depends on, so the new point is appended. -/
def insertKeyframePoint (frame value : Int) (kps : List Keyframe) : List Keyframe :=
  if kps.any fun k => k.frame = frame then
    kps.map fun k => if k.frame = frame then { k with value := value } else k
  else kps ++ [⟨frame, value⟩]

/-- Insertion of an integer into a sorted list, for `sortedSet`. -/
def insertSortedInt (x : Int) : List Int → List Int
  | [] => [x]
  | y :: ys => if x ≤ y then x :: y :: ys else y :: insertSortedInt x ys

/-- Python `sorted(list(set(xs)))`. -/
def sortedSet (xs : List Int) : List Int :=
  xs.dedup.foldr insertSortedInt []

/-- The `zero_frames` set of `FACEIT_OT_ForceZeroFrames.execute`
(animate_operators.py:1054-1059): both boundary frames `frame + 1` and
`frame - 9` of every expression slot, deduplicated and sorted. -/
def zeroFrames (expression_list : List ExpressionItem) : List Int :=
  sortedSet (expression_list.foldl (fun acc e => acc ++ [e.frame + 1, e.frame - 9]) [])

/-- The keyframe value `FACEIT_OT_ForceZeroFrames.execute` inserts at zero
frames (animate_operators.py:1083-1088): 1 for fcurves whose data path
mentions `scale` and for `rotation_quaternion` array index 0, else 0. -/
def force_zero_value (dp : PyStr) (array_index : Nat) : Int :=
  if pyIn (lit "scale") dp then 1
  else if pyIn (lit "rotation_quaternion") dp ∧ array_index = 0 then 1
  else 0

/-- The per-fcurve body of the `FACEIT_OT_ForceZeroFrames.execute` loop
(animate_operators.py:1080-1094): skip constraint/influence curves,
otherwise insert a keyframe with the channel's rest value at every zero
frame. -/
def forceZeroFramesCurve (zfs : List Int) (fc : FCurve) : FCurve :=
  if pyIn (lit "constraints") fc.data_path || pyIn (lit "influence") fc.data_path then fc
  else
    let v := force_zero_value fc.data_path fc.array_index
    let kps := zfs.foldl (fun kps f => insertKeyframePoint f v kps) fc.keyframe_points
    { fc with keyframe_points := kps }

/-- Transcription of `FACEIT_OT_ForceZeroFrames.execute`
(animate_operators.py:1028-1120), restricted to the modelled state: the
fcurve loop inserting rest keyframes at every zero frame of the rig's
active action.  The surrounding pose-selection, mode changes and the
`bpy.ops.anim.keyframe_insert` calls act on host data through `bpy.ops`;
the scene frame and the auto-key setting are saved and restored, so the
net effect on the modelled state is the fcurve loop alone.  `poll`
requires a non-empty expression list and an active action; absent those,
`zero_frames[0]` and `rig.animation_data.action` would raise. -/
def FACEIT_OT_ForceZeroFrames_execute (s : SceneState) : OpResult × SceneState :=
  match s.rig_action with
  | none => (OpResult.RAISED, s)
  | some act =>
      if s.expression_list = [] then (OpResult.RAISED, s)
      else
        let zfs := zeroFrames s.expression_list
        (OpResult.FINISHED,
          { s with rig_action := some { fcurves := act.fcurves.map (forceZeroFramesCurve zfs) } })

/-- Names of the expression-list entries (used for `find`-by-name and for
the double-entry check). -/
def listNames (l : List ExpressionItem) : List PyStr := l.map (·.name)

/-- Modelled from the spec: `futils.get_action_frame_range` (in
`core/faceit_utils.py`, which is not under `src/`): the frame span of an
action, Blender's `Action.frame_range` — smallest and largest keyframe
frame over all fcurves.  No claim depends on its exact value; it only
feeds `scene.frame_start` / `scene.frame_end` updates. -/
def get_action_frame_range (a : Action) : Int × Int :=
  let frames := a.fcurves.foldr (fun fc acc => fc.keyframe_points.map (·.frame) ++ acc) []
  (frames.foldr min 0, frames.foldr max 0)

/-- The `futils.set_frame_range(get_action_frame_range(...))` pattern the
operators run before returning: update the scene frame range from the
overwrite action when one exists. -/
def setFrameRangeFromOw (st : SceneState) : SceneState :=
  match st.ow_action with
  | some ow =>
    { st with frame_start := (get_action_frame_range ow).1
              frame_end := (get_action_frame_range ow).2 }
  | none => st

/-- Set the frame range from the overwrite action and return FINISHED,
the common ending of the add and remove operators. -/
def frameRangeReturn (st : SceneState) : OpResult × SceneState :=
  (OpResult.FINISHED, setFrameRangeFromOw st)

/-- The three keyframe passes `FACEIT_OT_MoveExpressionItem.execute` runs
on every fcurve of the overwrite and shape actions
(animate_operators.py:456-467): park the keyframes of the neighbour slot
half a slot away, move the keyframes of the moved slot onto the
neighbour's frame, then bring the parked keyframes onto the moved slot's
frame.  `add_frame / 2` is float division in Python; with
`add_frame = ±10` it is exactly `±5`, so integer division is faithful. -/
def movePass (expression_frame new_index_frame add_frame : Int)
    (kps : List Keyframe) : List Keyframe :=
  let p1 := kps.map fun k =>
    if k.frame = new_index_frame then { k with frame := k.frame - add_frame / 2 } else k
  let p2 := p1.map fun k =>
    if k.frame = expression_frame then { k with frame := k.frame + add_frame } else k
  p2.map fun k =>
    if k.frame = new_index_frame - add_frame / 2 then { k with frame := k.frame - add_frame / 2 } else k

/-- Data path of the corrective shape-key fcurve of an expression
(animate_operators.py:472 and 478). -/
def cc_curve_data_path (name : PyStr) : PyStr :=
  lit "key_blocks[\"faceit_cc_" ++ name ++ lit "\"].value"

/-- Shift all keyframes of the first fcurve with the given data path by
`delta` frames (`action.fcurves.find(dp)` followed by the shift loops at
animate_operators.py:472-482); other fcurves are untouched. -/
def shiftFirstCurve (dp : PyStr) (delta : Int) : List FCurve → List FCurve
  | [] => []
  | fc :: rest =>
    if fc.data_path = dp then
      { fc with keyframe_points := fc.keyframe_points.map fun k =>
          { k with frame := k.frame + delta } } :: rest
    else fc :: shiftFirstCurve dp delta rest

/-- Blender `bpy_prop_collection.move(src, dst)`: the element at `src` is
removed and reinserted at `dst` (host-API model). -/
def bpyCollectionMove {α : Type} (src dst : Nat) (l : List α) : List α :=
  match l[src]? with
  | none => l
  | some x => (l.eraseIdx src).insertIdx dst x

/-- Transcription of `FACEIT_OT_MoveExpressionItem.execute`
(animate_operators.py:430-489) together with `move_index`
(animate_operators.py:424-428).  `poll` guarantees
`0 ≤ expression_list_index < len(expression_list)`; outside that range the
model raises (Python's negative-index aliasing is never exercised because
`poll` rejects negative indices). -/
def FACEIT_OT_MoveExpressionItem_execute (direction : PyStr) (s : SceneState) :
    OpResult × SceneState :=
  let index := s.expression_list_index
  let l := s.expression_list
  if hidx : 0 ≤ index ∧ index.toNat < l.length then
    let i := index.toNat
    let expression_item := l.get ⟨i, hidx.2⟩
    let add_index : Int := if direction = lit "UP" then -1 else 1
    let new_index : Int := index + add_index
    let add_frame := add_index * 10
    if new_index = (l.length : Int) ∨ new_index = -1 then (OpResult.CANCELLED, s)
    else
      match l[new_index.toNat]? with
      | none => (OpResult.RAISED, s)
      | some new_index_item =>
        let expression_frame := expression_item.frame
        let new_index_frame := new_index_item.frame
        let trans := fun (a : Action) =>
          Action.mk (a.fcurves.map fun c =>
            { c with keyframe_points := movePass expression_frame new_index_frame add_frame c.keyframe_points })
        let ow2 := s.ow_action.map trans
        let sh2 := s.shape_action.map trans
        let cc2 := s.cc_action.map fun a =>
          let fcs1 := shiftFirstCurve (cc_curve_data_path expression_item.name) add_frame a.fcurves
          Action.mk (shiftFirstCurve (cc_curve_data_path new_index_item.name) (-add_frame) fcs1)
        let l2 := (l.set i { expression_item with frame := new_index_frame }).set
          new_index.toNat { new_index_item with frame := expression_frame }
        let l3 := bpyCollectionMove new_index.toNat i l2
        let list_length : Int := (l.length : Int) - 1
        let idx2 := max 0 (min (index + add_index) list_length)
        (OpResult.FINISHED,
          { s with expression_list := l3, expression_list_index := idx2,
                   ow_action := ow2, shape_action := sh2, cc_action := cc2 })
  else (OpResult.RAISED, s)

/-- Transcription of `FACEIT_OT_ClearFaceitExpressions.execute`
(animate_operators.py:1305-1354): clears the expression list, resets the
active index to -1, removes the `faceit_shape_action` and
`overwrite_shape_action` datablocks when present, and clears the rig's
active action.  Bone transforms and the corrective shape keys on the
registered objects (mute/remove) are host-object state outside the model;
the corrective action datablock itself is only unassigned, never removed,
so `cc_action` is unchanged.  Frame range, current frame and the auto-key
setting are untouched. -/
def FACEIT_OT_ClearFaceitExpressions_execute (s : SceneState) : OpResult × SceneState :=
  (OpResult.FINISHED,
    { s with expression_list := [], expression_list_index := -1,
             shape_action := none, ow_action := none, rig_action := none })

/-- Transcription of `FACEIT_OT_RemoveExpressionItem.execute`
(animate_operators.py:1375-1443).  With at most one entry it delegates to
the clear operator and resets the frame range to 1..250; otherwise it
selects the item (by name when `remove_item` is set, else by the active
index), removes the item's keyframes from the overwrite, shape and
corrective actions, shifts later keyframes and expression frames down by
10, and removes the list entry found by name.  A failed selection raises
(`poll` guarantees a valid active index; a missing `remove_item` name is
a `KeyError`), after the auto-key flag was already cleared. -/
def FACEIT_OT_RemoveExpressionItem_execute (remove_item : PyStr) (s : SceneState) :
    OpResult × SceneState :=
  let s0 := { s with use_keyframe_insert_auto := false }
  if s.expression_list.length ≤ 1 then
    let s1 := (FACEIT_OT_ClearFaceitExpressions_execute s0).2
    (OpResult.FINISHED, { s1 with frame_start := 1, frame_end := 250 })
  else
    let sel : Option ExpressionItem :=
      if remove_item ≠ [] then s.expression_list.find? (fun e => e.name = remove_item)
      else if h : 0 ≤ s.expression_list_index ∧
          s.expression_list_index.toNat < s.expression_list.length then
        some (s.expression_list.get ⟨s.expression_list_index.toNat, h.2⟩)
      else none
    match sel with
    | none => (OpResult.RAISED, s0)
    | some item =>
      let item_index := s.expression_list.findIdx (fun e => e.name = item.name)
      let frame := item.frame
      let ow2 := s.ow_action.map (removeExpressionKeyframes frame)
      let sh2 := s.shape_action.map (removeExpressionKeyframes frame)
      let cc2 := s.cc_action.map (removeExpressionKeyframes frame)
      let l2 := (s.expression_list.eraseIdx item_index).map fun it =>
        if it.frame > frame then { it with frame := it.frame - 10 } else it
      let count : Int := (l2.length : Int)
      let idx2 := if s.expression_list_index ≥ count then count - 1 else s.expression_list_index
      let s2 := { s with expression_list := l2, expression_list_index := idx2
                         ow_action := ow2, shape_action := sh2, cc_action := cc2 }
      frameRangeReturn s2

/-- Helper for the modelled double-entry rename: suffix the name until it
is not in `names`, trying at most `fuel` suffixes. -/
def freshNameGo (names : List PyStr) : Nat → PyStr → PyStr
  | 0, n => n
  | fuel + 1, n => if n ∈ names then freshNameGo names fuel (n ++ lit ".001") else n

/-- Length of the longest name in the list. -/
def maxNameLength (names : List PyStr) : Nat :=
  names.foldr (fun m acc => max m.length acc) 0

/-- Modelled from the spec: `get_expression_name_double_entries(name,
expression_list)` (from `core/detection_manager.py`, which is not under
`src/`) resolves collisions of the requested expression name with entries
already in the list: the name is returned unchanged when free, otherwise
a Blender-style numerically suffixed variant that is not in the list. -/
def get_expression_name_double_entries (name : PyStr) (l : List ExpressionItem) : PyStr :=
  freshNameGo (listNames l) (maxNameLength (listNames l) + 1) name

/-- Modelled from the spec: `fc_dr_utils.get_fcurve_from_bpy_struct`
(`core/fc_dr_utils.py`, not under `src/`): look up the fcurve with the
given data path and array index, creating an empty one when absent. -/
def get_fcurve_from_bpy_struct (dp : PyStr) (idx : Nat) (fcs : List FCurve) : List FCurve :=
  if fcs.any fun fc => fc.data_path = dp ∧ fc.array_index = idx then fcs
  else fcs ++ [⟨dp, idx, []⟩]

/-- Modelled from the spec: `a_utils.add_expression_keyframes(rig, frame)`
(`animate/animate_utils.py`, not under `src/`): keyframes the rig's
current pose on the active action at the expression's slot frame.  The
pose values live in host state outside this embedding; the model inserts
a keyframe at `frame` on every fcurve of the action. -/
def add_expression_keyframes (frame : Int) (a : Action) : Action :=
  Action.mk (a.fcurves.map fun fc =>
    { fc with keyframe_points := insertKeyframePoint frame 0 fc.keyframe_points })

/-- The per-bone fcurve preparation of
`FACEIT_OT_AddExpressionItem.execute` (animate_operators.py:284-296): for
every pose bone not containing `MCH`/`DEF`, ensure location/scale/
rotation_euler fcurves with array indices 0..2 exist on the overwrite
action. -/
def prepareBoneFCurves (rig_bones : List PyStr) (a : Action) : Action :=
  Action.mk (rig_bones.foldl (fun fcs b =>
    if pyIn (lit "MCH") b || pyIn (lit "DEF") b then fcs
    else
      let base_dp := lit "pose.bones[\"" ++ b ++ lit "\"]."
      let dps := [base_dp ++ lit "location", base_dp ++ lit "scale", base_dp ++ lit "rotation_euler"]
      dps.foldl (fun fcs2 dp =>
        (List.range 3).foldl (fun fcs3 i => get_fcurve_from_bpy_struct dp i fcs3) fcs2) fcs)
    a.fcurves)

/-- Operator properties of `FACEIT_OT_AddExpressionItem`
(animate_operators.py:117-189) that its `execute` reads. -/
structure AddExpressionItemProps where
  expression_name : PyStr
  new_exp_index : Int
  mirror_name_overwrite : PyStr
  side : PyStr
  custom_shape : Bool
  auto_mirror : Bool
  procedural : PyStr
  deriving DecidableEq

/-- Transcription of the body of `FACEIT_OT_AddExpressionItem.execute`
(animate_operators.py:238-331), parameterized by the state effect
`recurse` of the one recursive `bpy.ops.faceit.add_expression_item` call
at line 311 (`auto_mirror` branch).
With a non-default `new_exp_index` the source reads the unbound local
`index` (line 252) and raises `NameError` after having cleared the
auto-key flag; the model mirrors that.  The procedural eye-blink operator
(`faceit.procedural_eye_blinks`) invoked at lines 304 and 323 lives
outside `src/` and edits pose keyframes of the active action through host
APIs; it does not touch the modelled expression list and is not modelled.
The auto-key flag is saved on entry and restored before returning. -/
def addExpressionItemStep (env : Env) (props : AddExpressionItemProps)
    (recurse : AddExpressionItemProps → SceneState → SceneState)
    (s : SceneState) : OpResult × SceneState :=
  if props.new_exp_index ≠ -1 then
    (OpResult.RAISED, { s with use_keyframe_insert_auto := false })
  else
    let index := s.expression_list.length
    let frame : Int := ((index : Int) + 1) * 10
    let expression_name_final := get_expression_name_double_entries props.expression_name s.expression_list
    let item : ExpressionItem :=
      { name := expression_name_final, side := props.side, frame := frame
        mirror_name := if props.mirror_name_overwrite ≠ [] then props.mirror_name_overwrite else []
        procedural := props.procedural }
    let s1 := { s with expression_list := s.expression_list ++ [item] }
    if props.custom_shape then
      let side2 := if ¬ poll_side_in_expression_name props.side props.expression_name then lit "N"
        else props.side
      let mirror2 := if item.mirror_name = [] then get_mirror_name side2 expression_name_final
        else item.mirror_name
      let item2 := { item with mirror_name := mirror2 }
      let l2 := s1.expression_list.set index item2
      let shape2 := match s1.shape_action with
        | none => Action.mk []
        | some a => a
      let ow2 := match s1.ow_action with
        | none => Action.mk []
        | some a => a
      let ow3 := prepareBoneFCurves env.rig_bones ow2
      let ow4 := add_expression_keyframes frame ow3
      let s2 := { s1 with expression_list := l2, shape_action := some shape2
                          ow_action := some ow4, rig_action := some ow4 }
      let s3 :=
        if props.auto_mirror ∧ side2 ≠ lit "N" then
          let mirror_side := if side2 = lit "L" then lit "R" else lit "L"
          let props2 : AddExpressionItemProps :=
            { expression_name := item2.mirror_name, new_exp_index := -1
              mirror_name_overwrite := [], side := mirror_side, custom_shape := true
              auto_mirror := false, procedural := props.procedural }
          recurse props2 s2
        else s2
      let s4 := { s3 with expression_list_index := (index : Int)
                          use_keyframe_insert_auto := s.use_keyframe_insert_auto }
      frameRangeReturn s4
    else
      let s4 := { s1 with use_keyframe_insert_auto := s.use_keyframe_insert_auto }
      frameRangeReturn s4

/-- `addExpressionItemStep` with `fuel` bounding the `auto_mirror`
recursion depth (the recursive call at line 311 passes `auto_mirror`'s
default False, so depth 1 suffices; the fuel-0 branch is never reached
from the entry point, where exhausted fuel leaves the state of the first
add unchanged). -/
def addExpressionItemAux (env : Env) : AddExpressionItemProps → Nat → SceneState →
    OpResult × SceneState
  | props, 0, s => addExpressionItemStep env props (fun _ s2 => s2) s
  | props, fuel + 1, s => addExpressionItemStep env props
      (fun props2 s2 => (addExpressionItemAux env props2 fuel s2).2) s

/-- Entry point of `FACEIT_OT_AddExpressionItem.execute`: fuel 1 covers
the single `auto_mirror` recursion level. -/
def FACEIT_OT_AddExpressionItem_execute (env : Env) (props : AddExpressionItemProps)
    (s : SceneState) : OpResult × SceneState :=
  addExpressionItemAux env props 1 s

/-- Python `s.find(sub)`: index of the first occurrence, or -1. -/
def pyFind (sub s : PyStr) : Int :=
  match (List.range (s.length + 1)).find? (fun i => decide (sub <+: s.drop i)) with
  | some i => (i : Int)
  | none => -1

/-- Python `s.rfind(sub)`: index of the last occurrence, or -1. -/
def pyRFind (sub s : PyStr) : Int :=
  match ((List.range (s.length + 1)).filter fun i => decide (sub <+: s.drop i)).getLast? with
  | some i => (i : Int)
  | none => -1

/-- Python slicing `s[a:b]` with the usual clamping and negative-index
wrapping. -/
def pySlice (s : PyStr) (a b : Int) : PyStr :=
  let n : Int := (s.length : Int)
  let aN := (if a < 0 then max 0 (n + a) else min a n).toNat
  let bN := (if b < 0 then max 0 (n + b) else min b n).toNat
  (s.take bN).drop aN

/-- CPython `posixpath.splitext`: split off the extension at the last dot
of the basename; leading dots of the basename never start an extension. -/
def os_path_splitext (p : PyStr) : PyStr × PyStr :=
  let sepIndex := pyRFind (lit "/") p
  let dotIndex := pyRFind (lit ".") p
  if dotIndex > sepIndex then
    if (pySlice p (sepIndex + 1) dotIndex).all (· = '.') then (p, [])
    else (pySlice p 0 dotIndex, pySlice p dotIndex (p.length : Int))
  else (p, [])

/-- Per-expression record of the `expressions` object in a `.face` file
(written at animate_operators.py:1199-1207, read at 955-970). -/
structure ExpressionData where
  mirror_name : PyStr
  side : PyStr
  procedural : PyStr
  deriving DecidableEq

/-- Parsed contents of a `.face` file.  JSON objects keep insertion order
through `json.dump`/`json.load` (Python dicts are ordered), so they are
association lists with distinct keys.  The `rest_pose` entry written by
the exporter is never read by the importer and is omitted.  The
`action` entry maps a data path to, per array index, the exported
keyframe rows. -/
structure FaceFile where
  expressions : List (PyStr × ExpressionData)
  action : List (PyStr × List (Nat × List Keyframe))
  action_scale : List Int
  eye_dimensions : List Int
  deriving DecidableEq

/-- Python dict assignment `d[k] = v` on an insertion-ordered dict:
replace the value in place when the key exists, else append. -/
def upsertAssoc {κ β : Type} [DecidableEq κ] (key : κ) (v : β) :
    List (κ × β) → List (κ × β)
  | [] => [(key, v)]
  | (k, w) :: rest => if k = key then (k, v) :: rest else (k, w) :: upsertAssoc key v rest

/-- Python `d.get(k)` on an association list. -/
def assocGet {κ β : Type} [DecidableEq κ] (key : κ) : List (κ × β) → Option β
  | [] => none
  | (k, v) :: rest => if k = key then some v else assocGet key rest

/-- The per-expression entry the exporter writes
(animate_operators.py:1199-1207): mirror name, side, and the procedural
flag — which is forced to EYEBLINKS for expressions named eyeBlinkLeft or
eyeBlinkRight whose stored flag is NONE. -/
def export_expression_entry (exp : ExpressionItem) : ExpressionData :=
  let procedural :=
    if (exp.name = lit "eyeBlinkLeft" ∨ exp.name = lit "eyeBlinkRight") ∧
        exp.procedural = lit "NONE" then lit "EYEBLINKS"
    else exp.procedural
  { mirror_name := exp.mirror_name, side := exp.side, procedural := procedural }

/-- The `expressions` object built by
`FACEIT_OT_ExportExpressionsToJson.execute` (animate_operators.py:1199-1207),
keyed by expression name. -/
def export_expression_list (l : List ExpressionItem) : List (PyStr × ExpressionData) :=
  l.foldl (fun acc exp => upsertAssoc exp.name (export_expression_entry exp) acc) []

/-- The row filter the exporter applies per fcurve
(animate_operators.py:1232-1244): `mouth_lock` curves keep everything;
otherwise drop keyframes off the 10-frame grid (`remove_zero_poses`) and
keyframes carrying the channel's rest value (`remove_zero_keyframes`,
rest value 1 for scale curves and for `rotation_quaternion` curves with
array index 0 — the Python condition `'scale' in dp or
'rotation_quaternion' in dp and array_index == 0` groups exactly so). -/
def export_curve_rows (dp : PyStr) (array_index : Nat) (kps : List Keyframe) : List Keyframe :=
  if pyIn (lit "mouth_lock") dp then kps
  else
    let rows := kps.filter fun k => k.frame % 10 = 0
    if pyIn (lit "scale") dp || (pyIn (lit "rotation_quaternion") dp && decide (array_index = 0)) then
      rows.filter fun k => ¬ k.value = 1
    else
      rows.filter fun k => ¬ k.value = 0

/-- The `action` object built by the exporter
(animate_operators.py:1215-1257): skip `DEF-`/`MCH-`/`ORG-` and
`influence` curves, filter the rows, drop empty results, and collect per
data path and array index. -/
def export_action_dict (a : Action) : List (PyStr × List (Nat × List Keyframe)) :=
  a.fcurves.foldl (fun acc fc =>
    if pyIn (lit "DEF-") fc.data_path || pyIn (lit "MCH-") fc.data_path ||
        pyIn (lit "ORG-") fc.data_path then acc
    else if pyIn (lit "influence") fc.data_path then acc
    else
      let rows := export_curve_rows fc.data_path fc.array_index fc.keyframe_points
      if rows = [] then acc
      else
        match assocGet fc.data_path acc with
        | some dp_dict => upsertAssoc fc.data_path (upsertAssoc fc.array_index rows dp_dict) acc
        | none => acc ++ [(fc.data_path, [(fc.array_index, rows)])]) []

/-- Transcription of `FACEIT_OT_ExportExpressionsToJson.execute`
(animate_operators.py:1153-1274): builds the `.face` data from the rig's
active action and the expression list.  `poll` requires a non-empty list
and an active action.  The pose-clearing runs through `bpy.ops` on host
data, and the scene frame and auto-key flag are saved and restored, so
the modelled state is returned unchanged; the produced file is the third
component.  Rig and eye dimensions come from host measurements (`Env`). -/
def FACEIT_OT_ExportExpressionsToJson_execute (env : Env) (s : SceneState) :
    OpResult × SceneState × Option FaceFile :=
  match s.rig_action with
  | none => (OpResult.RAISED, s, none)
  | some action =>
    (OpResult.FINISHED, s,
      some { expressions := export_expression_list s.expression_list
             action := export_action_dict action
             action_scale := env.rig_dimensions
             eye_dimensions := env.eye_dimensions })

/-- Bone-name extraction of the importer (animate_operators.py:783):
`dp[dp.find('bones["') + 7 : dp.find('"]')]`. -/
def boneNameOfDataPath (dp : PyStr) : PyStr :=
  pySlice dp (pyFind (lit "bones[\"") dp + 7) (pyFind (lit "\"]") dp)

/-- Channel count per data path (animate_operators.py:790-796). -/
def importChannelCount (dp : PyStr) : Nat :=
  if pyIn (lit "rotation_quaternion") dp then 4
  else if pyIn (lit "scale") dp || pyIn (lit "rotation_euler") dp || pyIn (lit "location") dp then 3
  else 1

/-- Rest value of an imported channel (animate_operators.py:808-812): 1
for scale curves and the quaternion w component, else 0. -/
def importBaseValue (dp : PyStr) (i : Nat) : Int :=
  if pyIn (lit "scale") dp then 1
  else if pyIn (lit "rotation_quaternion") dp ∧ i = 0 then 1
  else 0

/-- The importer's zero-frame set (animate_operators.py:769-776): both
boundary frames of every imported slot `(i+1)*10`, deduplicated and
sorted. -/
def importZeroFrames (n : Nat) : List Int :=
  sortedSet ((List.range n).foldl
    (fun acc i => acc ++ [((i : Int) + 1) * 10 + 1, ((i : Int) + 1) * 10 - 9]) [])

/-- One imported channel fcurve (animate_operators.py:797-823): the
exported rows (when the channel entry exists and is non-empty —
`if data:` is false for both `None` and `[]`, and `np.empty(2)` has
`ndim 1`) followed by rest keyframes at every zero frame.
`populate_keyframe_points_from_np_array(fc, kf_data, add=True)` from
`core/fc_dr_utils.py` (not under `src/`) appends the array rows to the
fresh fcurve.  The sorting expression at line 821 discards its result and
is a no-op, and keyframe interpolation modes are not modelled. -/
def importChannelFCurve (zfs : List Int) (dp : PyStr) (i : Nat)
    (chdata : List (Nat × List Keyframe)) : FCurve :=
  let base_value := importBaseValue dp i
  let kf_data_base := zfs.map fun f => Keyframe.mk f base_value
  let kf_data := match assocGet i chdata with
    | some d => if d = [] then kf_data_base else d ++ kf_data_base
    | none => kf_data_base
  FCurve.mk dp i kf_data

/-- The fcurves one `action_dict` entry contributes to the temp action
(animate_operators.py:782-823): none for `influence` paths and for bones
missing from the rig (the latter only produce a warning), else one fcurve
per channel. -/
def importEntryFCurves (rig_bones : List PyStr) (zfs : List Int)
    (entry : PyStr × List (Nat × List Keyframe)) : List FCurve :=
  if pyIn (lit "influence") entry.1 then []
  else if ¬ rig_bones.contains (boneNameOfDataPath entry.1) then []
  else (List.range (importChannelCount entry.1)).map
    (fun i => importChannelFCurve zfs entry.1 i entry.2)

/-- The temp action the importer builds from the `.face` data
(animate_operators.py:764-827). -/
def appendTempAction (rig_bones : List PyStr) (file : FaceFile) : Action :=
  let zfs := importZeroFrames file.expressions.length
  Action.mk (file.action.foldl (fun fcs entry => fcs ++ importEntryFCurves rig_bones zfs entry) [])

/-- Modelled from the spec: `a_utils.create_overwrite_animation(rig)`
(`animate/animate_utils.py`, not under `src/`): creates the
`overwrite_shape_action` as a copy of the freshly assigned shape action —
the glossary's "two parallel keyframe stores — one authoritative
('overwrite'), one backup — kept in sync per expression slot". -/
def create_overwrite_animation (shape : Action) : Action := shape

/-- The APPEND-mode fcurve merge (animate_operators.py:922-943): each temp
fcurve's keyframes, shifted by the frame offset, are appended into the
matching (or freshly created) fcurve of the target action. -/
def appendCurvesInto (offset : Int) (temp : Action) (target : Action) : Action :=
  Action.mk (temp.fcurves.foldl (fun fcs import_fc =>
    let kf := import_fc.keyframe_points.map fun k => { k with frame := k.frame + offset }
    let fcs2 := get_fcurve_from_bpy_struct import_fc.data_path import_fc.array_index fcs
    fcs2.map fun fc =>
      if fc.data_path = import_fc.data_path ∧ fc.array_index = import_fc.array_index then
        { fc with keyframe_points := fc.keyframe_points ++ kf }
      else fc) target.fcurves)

/-- Operator properties of `FACEIT_OT_AppendActionToFaceitRig` read by its
`execute`.  `first_expression_set` is the class attribute set by `invoke`
(animate_operators.py:617), default False.  The scale/rotation/constraint
options only drive host-side pose edits and are omitted. -/
structure AppendActionProps where
  expressions_type : PyStr
  load_custom_path : Bool
  load_method : PyStr
  filepath : PyStr
  first_expression_set : Bool
  deriving DecidableEq

/-- Body of `FACEIT_OT_AppendActionToFaceitRig.execute` after the
custom-path validation (animate_operators.py:677-1009).  Not modelled,
with justification:
* pose resets, rest-pose apply, constraint resets (721-737) act on host
  rig data through `bpy.ops`/`a_utils`;
* the action scaling (839-912, `a_utils.scale_*` outside `src/`)
  rescales keyframe values in place and moves no keyframe to another
  frame, and no claim reads scaled values;
* the preset-only `procedural_mouth_close` branches (972-983) run with
  INVOKE_DEFAULT, which only opens a dialog during this execute;
* corrective shape-key reevaluation (1000-1003) edits host mesh objects.
The auto-key flag is forced off on entry and set to
`first_expression_set` at the end (1007); the scene frame is saved and
restored (678, 1006). -/
def appendActionBody (env : Env) (props : AppendActionProps) (file : FaceFile)
    (s : SceneState) : OpResult × SceneState :=
  let lm := if props.load_method = lit "APPEND" ∧
      (s.expression_list = [] ∨ s.shape_action = none ∨ s.ow_action = none) then lit "OVERWRITE"
    else props.load_method
  let cleared := lm = lit "OVERWRITE"
  let l0 := if cleared then [] else s.expression_list
  let shape0 := if cleared then none else s.shape_action
  let ow0 := if cleared then none else s.ow_action
  let temp := appendTempAction env.rig_bones file
  let stage :=
    if cleared then
      let sh := temp
      let ow := create_overwrite_animation sh
      (some sh, some ow, some ow)
    else
      match shape0, ow0 with
      | some sh, some ow =>
        let frame_offset := (get_action_frame_range ow).2 - 1
        let sh2 := appendCurvesInto frame_offset temp sh
        let ow2 := appendCurvesInto frame_offset temp ow
        (some sh2, some ow2, some ow2)
      | _, _ => (shape0, ow0, some temp)
  let sAfterActions := { s with expression_list := l0, shape_action := stage.1
                                ow_action := stage.2.1, rig_action := stage.2.2 }
  let sAdded := file.expressions.foldl (fun st e =>
    let side := if e.2.side = [] then lit "N" else e.2.side
    let p : AddExpressionItemProps :=
      { expression_name := e.1, new_exp_index := -1, mirror_name_overwrite := e.2.mirror_name
        side := side, custom_shape := false, auto_mirror := false, procedural := e.2.procedural }
    (FACEIT_OT_AddExpressionItem_execute env p st).2) sAfterActions
  let sRange := setFrameRangeFromOw sAdded
  (OpResult.FINISHED,
    { sRange with frame_current := s.frame_current
                  use_keyframe_insert_auto := props.first_expression_set })

/-- Transcription of `FACEIT_OT_AppendActionToFaceitRig.execute`
(animate_operators.py:663-1009).  With `load_custom_path` set, a filepath
whose extension is not `.face`, or which is not an existing file, is
rejected with CANCELLED before anything is touched (663-675).  The parsed
JSON contents of the file (custom or preset) are the `file` argument —
`json.load` of `json.dump` output is the identity on the structure
modelled by `FaceFile`. -/
def FACEIT_OT_AppendActionToFaceitRig_execute (env : Env) (props : AppendActionProps)
    (file : FaceFile) (s : SceneState) : OpResult × SceneState :=
  if props.load_custom_path then
    if (os_path_splitext props.filepath).2 ≠ lit ".face" then (OpResult.CANCELLED, s)
    else if ¬ env.isfile props.filepath then (OpResult.CANCELLED, s)
    else appendActionBody env props file s
  else appendActionBody env props file s

/-- Sample scene state used to instantiate theorems with hypotheses at
concrete inputs. -/
def emptyState : SceneState :=
  { expression_list := [], expression_list_index := -1, frame_start := 1, frame_end := 250
    frame_current := 1, use_keyframe_insert_auto := false, shape_action := none
    ow_action := none, cc_action := none, rig_action := none }

/-- Sample expression item for concrete instantiations. -/
def mkItem (name side : String) (frame : Int) : ExpressionItem :=
  { name := lit name, side := lit side, frame := frame, mirror_name := [], procedural := lit "NONE" }

/-- Sample host environment for concrete instantiations. -/
def sampleEnv : Env :=
  { rig_bones := [], isfile := fun _ => true, rig_dimensions := [1, 1, 1]
    eye_dimensions := [1, 1] }

/-- Invariant on expression lists, first half: the expression at 0-based
index `i` sits at frame `(i+1)*10`. -/
def slotFrames (l : List ExpressionItem) : Prop :=
  ∀ i (h : i < l.length), (l.get ⟨i, h⟩).frame = ((i : Int) + 1) * 10

/-- Invariant on expression lists, second half: expression names are
pairwise distinct (the add operator guarantees this through
`get_expression_name_double_entries`). -/
def namesNodup (l : List ExpressionItem) : Prop :=
  (listNames l).Nodup

/-- The conjunction of the two expression-list invariants of claim C1. -/
def listInv (l : List ExpressionItem) : Prop :=
  slotFrames l ∧ namesNodup l

/-- The expression item appended by the importer's per-entry add
(animate_operators.py:958-970) for file entry `e` when the list built so
far is `l`: the per-step form claims C1 and C5 describe. -/
def importedExpressionItem (l : List ExpressionItem) (e : PyStr × ExpressionData) :
    ExpressionItem :=
  { name := get_expression_name_double_entries e.1 l
    side := if e.2.side = [] then lit "N" else e.2.side
    frame := ((l.length : Int) + 1) * 10
    mirror_name := e.2.mirror_name
    procedural := e.2.procedural }

/-- The expression list built by folding the importer's adds over the
file entries, starting from `l0`. -/
def importedList (es : List (PyStr × ExpressionData)) (l0 : List ExpressionItem) :
    List ExpressionItem :=
  es.foldl (fun acc e => acc ++ [importedExpressionItem acc e]) l0

/-- Sample add-operator properties for concrete instantiations. -/
def sampleAddProps : AddExpressionItemProps :=
  { expression_name := lit "smile", new_exp_index := -1, mirror_name_overwrite := []
    side := lit "N", custom_shape := false, auto_mirror := false, procedural := lit "NONE" }

/-- Sample import-operator properties (preset path, OVERWRITE) for
concrete instantiations. -/
def sampleAppendProps : AppendActionProps :=
  { expressions_type := lit "ARKIT", load_custom_path := false
    load_method := lit "OVERWRITE", filepath := [], first_expression_set := false }

/-- Sample `.face` file contents with two expressions for concrete
instantiations. -/
def sampleFaceFile : FaceFile :=
  { expressions :=
      [(lit "smileLeft", { mirror_name := lit "smileRight", side := lit "L"
                           procedural := lit "NONE" }),
       (lit "smileRight", { mirror_name := lit "smileLeft", side := lit "R"
                            procedural := lit "NONE" })]
    action := [], action_scale := [1, 1, 1], eye_dimensions := [1, 1] }

/-- Sample state with a procedural-override eye-blink expression (the
exporter rewrites its NONE procedural flag). -/
def blinkState : SceneState :=
  { emptyState with
      expression_list := [{ name := lit "eyeBlinkLeft", side := lit "L", frame := 10
                            mirror_name := lit "eyeBlinkRight", procedural := lit "NONE" }]
      rig_action := some (Action.mk []) }

/-- Sample state with a duplicated expression name (the exporter's
name-keyed object collapses it). -/
def dupState : SceneState :=
  { emptyState with
      expression_list := [mkItem "smile" "N" 10, mkItem "smile" "N" 20]
      rig_action := some (Action.mk []) }

/-- Sample state with an empty side (the importer rewrites it to N). -/
def sideState : SceneState :=
  { emptyState with
      expression_list := [{ name := lit "smile", side := [], frame := 10
                            mirror_name := [], procedural := lit "NONE" }]
      rig_action := some (Action.mk []) }

/-- Sample two-expression state whose export is `sampleFaceFile`. -/
def roundState : SceneState :=
  { emptyState with
      expression_list :=
        [{ name := lit "smileLeft", side := lit "L", frame := 10
           mirror_name := lit "smileRight", procedural := lit "NONE" },
         { name := lit "smileRight", side := lit "R", frame := 20
           mirror_name := lit "smileLeft", procedural := lit "NONE" }]
      rig_action := some (Action.mk []) }

/-- States reachable from a fresh scene (empty expression list) by the
add, move, remove and import operators. -/
inductive Reachable : SceneState → Prop where
  | init (s : SceneState) (h : s.expression_list = []) : Reachable s
  | add (s : SceneState) (env : Env) (props : AddExpressionItemProps) :
      Reachable s → Reachable (FACEIT_OT_AddExpressionItem_execute env props s).2
  | move (s : SceneState) (direction : PyStr) :
      Reachable s → Reachable (FACEIT_OT_MoveExpressionItem_execute direction s).2
  | remove (s : SceneState) (remove_item : PyStr) :
      Reachable s → Reachable (FACEIT_OT_RemoveExpressionItem_execute remove_item s).2
  | importAction (s : SceneState) (env : Env) (props : AppendActionProps) (file : FaceFile) :
      Reachable s → Reachable (FACEIT_OT_AppendActionToFaceitRig_execute env props file s).2

/-- The per-curve effect claim C2 describes for the remove operator:
every keyframe at the removed frame disappears, every keyframe above it
moves back by exactly 10, all others are unchanged. -/
def removedCurveSpec (f : Int) (fc : FCurve) : FCurve :=
  { fc with keyframe_points :=
      (fc.keyframe_points.filter fun k => ¬ k.frame = f).map fun k =>
        if k.frame > f then { k with frame := k.frame - 10 } else k }

/-- The per-curve effect claim C3 describes for the move operator: the
keyframes of the two slots trade frames, all others are unchanged. -/
def swappedCurveSpec (f nif : Int) (fc : FCurve) : FCurve :=
  { fc with keyframe_points := fc.keyframe_points.map fun k =>
      if k.frame = f then { k with frame := nif }
      else if k.frame = nif then { k with frame := f }
      else k }

/-- Distinct keyframe frames within an fcurve: Blender's invariant — a
keyframe insertion at an occupied frame replaces the point, so an fcurve
never holds two points on the same frame. -/
def distinctFrames (fc : FCurve) : Prop :=
  fc.keyframe_points.Pairwise fun k1 k2 => k1.frame ≠ k2.frame

/-- Sample two-slot state with populated actions, for concrete
instantiations of the remove/move theorems. -/
def twoSlotState : SceneState :=
  { emptyState with
      expression_list := [mkItem "smile" "N" 10, mkItem "frown" "N" 20]
      expression_list_index := 0
      ow_action := some (Action.mk [FCurve.mk (lit "pose.bones[\"jaw\"].location") 0
        [Keyframe.mk 10 1, Keyframe.mk 11 0, Keyframe.mk 20 2]])
      shape_action := some (Action.mk [FCurve.mk (lit "pose.bones[\"jaw\"].location") 0
        [Keyframe.mk 10 1, Keyframe.mk 11 0, Keyframe.mk 20 2]])
      cc_action := none }

/-- Sample state whose overwrite action has an integer keyframe on the
midpoint frame between the two slots (frame 15). -/
def moveMidState : SceneState :=
  { emptyState with
      expression_list := [mkItem "smile" "N" 10, mkItem "frown" "N" 20]
      expression_list_index := 0
      ow_action := some (Action.mk [FCurve.mk (lit "pose.bones[\"jaw\"].location") 0
        [Keyframe.mk 15 7]]) }

/-- Claim C10: side classification is total and consistent with the side
predicate: `get_side` always returns one of 'L', 'N', 'R';
`poll_side_in_expression_name 'N'` is false for every name; and whenever
`get_side` answers 'L' or 'R', `poll_side_in_expression_name` agrees. -/
theorem get_side_total_and_poll_consistent (name : PyStr) :
    (get_side name = lit "L" ∨ get_side name = lit "N" ∨ get_side name = lit "R") ∧
    poll_side_in_expression_name (lit "N") name = false ∧
    ((get_side name = lit "L" ∨ get_side name = lit "R") →
      poll_side_in_expression_name (get_side name) name = true) := by
  by_cases h1 : left_condition name <;>
    by_cases h2 : right_condition name <;>
      simp [get_side, poll_side_in_expression_name, h1, h2, lit]

/-- Witness for C10 at concrete inputs. -/
theorem get_side_total_and_poll_consistent_witness :
    poll_side_in_expression_name (get_side (lit "smileL")) (lit "smileL") = true ∧
    (get_side (lit "jawOpen") = lit "L" ∨ get_side (lit "jawOpen") = lit "N" ∨
      get_side (lit "jawOpen") = lit "R") :=
  ⟨(get_side_total_and_poll_consistent (lit "smileL")).2.2 (Or.inl (by decide)),
    (get_side_total_and_poll_consistent (lit "jawOpen")).1⟩

/-- Claim C9: removing from a list with at most one entry clears the
whole expression set: `FACEIT_OT_RemoveExpressionItem.execute` empties the
expression list, deletes both the `faceit_shape_action` and the
`overwrite_shape_action`, sets the scene frame range to 1..250, and
returns FINISHED. -/
theorem remove_on_small_list_clears_all (remove_item : PyStr) (s : SceneState)
    (h : s.expression_list.length ≤ 1) :
    (FACEIT_OT_RemoveExpressionItem_execute remove_item s).1 = OpResult.FINISHED ∧
    (FACEIT_OT_RemoveExpressionItem_execute remove_item s).2.expression_list = [] ∧
    (FACEIT_OT_RemoveExpressionItem_execute remove_item s).2.shape_action = none ∧
    (FACEIT_OT_RemoveExpressionItem_execute remove_item s).2.ow_action = none ∧
    (FACEIT_OT_RemoveExpressionItem_execute remove_item s).2.frame_start = 1 ∧
    (FACEIT_OT_RemoveExpressionItem_execute remove_item s).2.frame_end = 250 := by
  simp [FACEIT_OT_RemoveExpressionItem_execute, FACEIT_OT_ClearFaceitExpressions_execute, h]

/-- Witness for C9 at a concrete one-entry state. -/
theorem remove_on_small_list_clears_all_witness :
    (FACEIT_OT_RemoveExpressionItem_execute []
      { emptyState with expression_list := [mkItem "smile" "N" 10] }).2.expression_list = [] :=
  (remove_on_small_list_clears_all []
    { emptyState with expression_list := [mkItem "smile" "N" 10] } (by decide)).2.1

/-- Claim C8: boundary atomicity of move: asked to move the first item UP
or the last item DOWN (target index -1 or the list length),
`FACEIT_OT_MoveExpressionItem.execute` returns CANCELLED and leaves the
state — list order, frame fields, and all keyframes of the overwrite,
shape and corrective actions — unchanged. -/
theorem move_boundary_cancels_unchanged (direction : PyStr) (s : SceneState)
    (hvalid : 0 ≤ s.expression_list_index ∧
      s.expression_list_index.toNat < s.expression_list.length)
    (hbound : s.expression_list_index + (if direction = lit "UP" then -1 else 1) =
        (s.expression_list.length : Int) ∨
      s.expression_list_index + (if direction = lit "UP" then -1 else 1) = -1) :
    FACEIT_OT_MoveExpressionItem_execute direction s = (OpResult.CANCELLED, s) := by
  simp only [FACEIT_OT_MoveExpressionItem_execute, dif_pos hvalid]
  rw [if_pos hbound]

/-- Witness for C8: moving the single entry of a one-entry list down. -/
theorem move_boundary_cancels_unchanged_witness :
    FACEIT_OT_MoveExpressionItem_execute (lit "DOWN")
      { emptyState with expression_list := [mkItem "smile" "N" 10], expression_list_index := 0 } =
    (OpResult.CANCELLED,
      { emptyState with expression_list := [mkItem "smile" "N" 10], expression_list_index := 0 }) :=
  move_boundary_cancels_unchanged (lit "DOWN")
    { emptyState with expression_list := [mkItem "smile" "N" 10], expression_list_index := 0 }
    (by decide) (by decide)

/-- Claim C6: with `load_custom_path` set, a filepath whose extension is
not `.face`, or which is not an existing file, makes
`FACEIT_OT_AppendActionToFaceitRig.execute` report an error and return
CANCELLED before modifying the scene, the expression list, or any action:
the state is returned unchanged. -/
theorem import_bad_path_cancels_unchanged (env : Env) (props : AppendActionProps)
    (file : FaceFile) (s : SceneState)
    (hcustom : props.load_custom_path = true)
    (hbad : (os_path_splitext props.filepath).2 ≠ lit ".face" ∨
      env.isfile props.filepath = false) :
    FACEIT_OT_AppendActionToFaceitRig_execute env props file s = (OpResult.CANCELLED, s) := by
  simp only [FACEIT_OT_AppendActionToFaceitRig_execute, hcustom, if_true]
  rcases hbad with hext | hfile
  · rw [if_pos hext]
  · by_cases hext : (os_path_splitext props.filepath).2 ≠ lit ".face"
    · rw [if_pos hext]
    · rw [if_neg hext, if_pos (by simp [hfile])]

/-- Witness for C6: a `.txt` filepath is rejected with the state intact. -/
theorem import_bad_path_cancels_unchanged_witness :
    FACEIT_OT_AppendActionToFaceitRig_execute sampleEnv
      { expressions_type := lit "ARKIT", load_custom_path := true
        load_method := lit "OVERWRITE", filepath := lit "exprs.txt"
        first_expression_set := false }
      { expressions := [], action := [], action_scale := [], eye_dimensions := [] }
      emptyState =
    (OpResult.CANCELLED, emptyState) :=
  import_bad_path_cancels_unchanged sampleEnv
    { expressions_type := lit "ARKIT", load_custom_path := true
      load_method := lit "OVERWRITE", filepath := lit "exprs.txt"
      first_expression_set := false }
    { expressions := [], action := [], action_scale := [], eye_dimensions := [] }
    emptyState rfl (Or.inl (by decide))

/-- Membership in a sorted insertion. -/
theorem mem_insertSortedInt (x y : Int) (l : List Int) :
    x ∈ insertSortedInt y l ↔ x = y ∨ x ∈ l := by
  induction l with
  | nil => simp [insertSortedInt]
  | cons z zs ih =>
    by_cases h : y ≤ z <;> simp [insertSortedInt, h, ih] <;> tauto

/-- Membership in `sortedSet` is membership in the original list. -/
theorem mem_sortedSet (x : Int) (xs : List Int) : x ∈ sortedSet xs ↔ x ∈ xs := by
  have key : ∀ l : List Int, x ∈ l.foldr insertSortedInt [] ↔ x ∈ l := by
    intro l
    induction l with
    | nil => simp
    | cons y ys ih => simp [mem_insertSortedInt, ih]
  unfold sortedSet
  rw [key, List.mem_dedup]

/-- Membership in a fold that appends a block per element. -/
theorem foldl_append_mem_iff {α β : Type} (g : α → List β) (l : List α) (init : List β)
    (b : β) :
    b ∈ l.foldl (fun acc x => acc ++ g x) init ↔ b ∈ init ∨ ∃ x ∈ l, b ∈ g x := by
  induction l generalizing init with
  | nil => simp
  | cons y ys ih =>
    rw [List.foldl_cons, ih]
    simp [List.mem_append]
    tauto

/-- The zero-frame set of `FACEIT_OT_ForceZeroFrames` holds exactly the
two boundary frames of every expression slot. -/
theorem mem_zeroFrames (f : Int) (l : List ExpressionItem) :
    f ∈ zeroFrames l ↔ ∃ e ∈ l, f = e.frame + 1 ∨ f = e.frame - 9 := by
  unfold zeroFrames
  rw [mem_sortedSet, foldl_append_mem_iff]
  simp

/-- The importer's zero-frame set holds exactly the two boundary frames of
every imported slot. -/
theorem mem_importZeroFrames (f : Int) (n : Nat) :
    f ∈ importZeroFrames n ↔ ∃ i < n, f = ((i : Int) + 1) * 10 + 1 ∨ f = ((i : Int) + 1) * 10 - 9 := by
  unfold importZeroFrames
  rw [mem_sortedSet, foldl_append_mem_iff]
  simp
  constructor
  · rintro ⟨x, ⟨a, ha, rfl⟩, h⟩
    exact ⟨a, ha, h⟩
  · rintro ⟨i, hi, h⟩
    exact ⟨(i : Int), ⟨i, hi, rfl⟩, h⟩

/-- Inserting a keyframe makes it a member. -/
theorem insertKeyframePoint_self_mem (f v : Int) (kps : List Keyframe) :
    Keyframe.mk f v ∈ insertKeyframePoint f v kps := by
  unfold insertKeyframePoint
  by_cases h : kps.any fun k => k.frame = f
  · rw [if_pos h]
    rcases List.any_eq_true.mp h with ⟨k, hk, hkf⟩
    refine List.mem_map.mpr ⟨k, hk, ?_⟩
    simp only [decide_eq_true_eq] at hkf
    simp [hkf]
  · rw [if_neg h]
    simp

/-- Inserting any keyframe with the same value keeps an existing
`(f, v)` point a member. -/
theorem insertKeyframePoint_mem_preserved (g f v : Int) (kps : List Keyframe)
    (h : Keyframe.mk f v ∈ kps) :
    Keyframe.mk f v ∈ insertKeyframePoint g v kps := by
  unfold insertKeyframePoint
  by_cases hany : kps.any fun k => k.frame = g
  · rw [if_pos hany]
    refine List.mem_map.mpr ⟨Keyframe.mk f v, h, ?_⟩
    by_cases hf : f = g <;> simp [hf]
  · rw [if_neg hany]
    exact List.mem_append_left _ h

/-- A fold of same-valued insertions keeps an existing `(f, v)` member. -/
theorem foldl_insert_mem_preserved (zfs : List Int) (f v : Int) (kps : List Keyframe)
    (h : Keyframe.mk f v ∈ kps) :
    Keyframe.mk f v ∈ zfs.foldl (fun kps g => insertKeyframePoint g v kps) kps := by
  induction zfs generalizing kps with
  | nil => exact h
  | cons z zs ih => exact ih _ (insertKeyframePoint_mem_preserved z f v kps h)

/-- A fold of same-valued insertions contains every inserted point. -/
theorem foldl_insert_mem (zfs : List Int) (f v : Int) (hf : f ∈ zfs) (kps : List Keyframe) :
    Keyframe.mk f v ∈ zfs.foldl (fun kps g => insertKeyframePoint g v kps) kps := by
  induction zfs generalizing kps with
  | nil => cases hf
  | cons z zs ih =>
    rcases List.mem_cons.mp hf with hz | hz
    · subst hz
      exact foldl_insert_mem_preserved zs f v _ (insertKeyframePoint_self_mem f v kps)
    · exact ih hz _

/-- Every fcurve of the importer's temp action carries the rest-keyframe
block for its channel as a suffix of its keyframe points. -/
theorem appendTempAction_kf_shape (rig_bones : List PyStr) (file : FaceFile)
    (fc : FCurve) (hfc : fc ∈ (appendTempAction rig_bones file).fcurves) :
    ∃ d, fc.keyframe_points =
      d ++ (importZeroFrames file.expressions.length).map
        (fun g => Keyframe.mk g (importBaseValue fc.data_path fc.array_index)) := by
  have hfc2 : fc ∈ file.action.foldl
      (fun fcs entry =>
        fcs ++ importEntryFCurves rig_bones (importZeroFrames file.expressions.length) entry)
      [] := hfc
  rw [foldl_append_mem_iff] at hfc2
  rcases hfc2 with h | ⟨entry, _, hmem⟩
  · cases h
  · unfold importEntryFCurves at hmem
    split at hmem
    · cases hmem
    · split at hmem
      · cases hmem
      · rcases List.mem_map.mp hmem with ⟨i, _, rfl⟩
        unfold importChannelFCurve
        cases hdata : assocGet i entry.2 with
        | none => exact ⟨[], by simp [hdata]⟩
        | some d =>
          by_cases hd : d = []
          · exact ⟨[], by simp [hdata, hd]⟩
          · exact ⟨d, by simp [hdata, hd]⟩

/-- Fcurve data path and array index survive `forceZeroFramesCurve`. -/
theorem forceZeroFramesCurve_dp (zfs : List Int) (fc : FCurve) :
    (forceZeroFramesCurve zfs fc).data_path = fc.data_path ∧
    (forceZeroFramesCurve zfs fc).array_index = fc.array_index := by
  unfold forceZeroFramesCurve
  split <;> exact ⟨rfl, rfl⟩

/-- Claim C4: rest-keyframe regeneration at slot boundaries.
`FACEIT_OT_ForceZeroFrames.execute` inserts, on every fcurve of the rig's
active action whose data path is not a constraint/influence path, a
keyframe at both boundary frames `f+1` and `f-9` of every expression
frame `f`, with the rest value (`force_zero_value`: 1 for scale channels
and for rotation_quaternion array index 0, 0 otherwise); and the temp
action `FACEIT_OT_AppendActionToFaceitRig.execute` builds from a `.face`
file carries the same boundary keyframes (frames `f+1`, `f-9` per
imported slot frame `f = (i+1)*10`, base value `importBaseValue`: 1 for
scale and quaternion-w, else 0) on every imported fcurve. -/
theorem rest_keyframes_at_slot_boundaries :
    (∀ (s : SceneState) (act : Action), s.rig_action = some act → s.expression_list ≠ [] →
      ∀ fc ∈ act.fcurves,
        pyIn (lit "constraints") fc.data_path = false →
        pyIn (lit "influence") fc.data_path = false →
        ∀ exp ∈ s.expression_list,
          ∃ act2, (FACEIT_OT_ForceZeroFrames_execute s).2.rig_action = some act2 ∧
            ∃ fc2 ∈ act2.fcurves, fc2.data_path = fc.data_path ∧
              fc2.array_index = fc.array_index ∧
              Keyframe.mk (exp.frame + 1)
                (force_zero_value fc.data_path fc.array_index) ∈ fc2.keyframe_points ∧
              Keyframe.mk (exp.frame - 9)
                (force_zero_value fc.data_path fc.array_index) ∈ fc2.keyframe_points) ∧
    (∀ (rig_bones : List PyStr) (file : FaceFile) (fc : FCurve),
      fc ∈ (appendTempAction rig_bones file).fcurves →
      ∀ i, i < file.expressions.length →
        Keyframe.mk (((i : Int) + 1) * 10 + 1)
          (importBaseValue fc.data_path fc.array_index) ∈ fc.keyframe_points ∧
        Keyframe.mk (((i : Int) + 1) * 10 - 9)
          (importBaseValue fc.data_path fc.array_index) ∈ fc.keyframe_points) := by
  constructor
  · intro s act hact hne fc hfc hc hi exp hexp
    simp only [FACEIT_OT_ForceZeroFrames_execute, hact, if_neg hne]
    refine ⟨_, rfl, forceZeroFramesCurve (zeroFrames s.expression_list) fc,
      List.mem_map_of_mem _ hfc,
      (forceZeroFramesCurve_dp _ fc).1, (forceZeroFramesCurve_dp _ fc).2, ?_, ?_⟩
    · unfold forceZeroFramesCurve
      rw [if_neg (by simp [hc, hi])]
      exact foldl_insert_mem _ _ _ ((mem_zeroFrames _ _).mpr ⟨exp, hexp, Or.inl rfl⟩) _
    · unfold forceZeroFramesCurve
      rw [if_neg (by simp [hc, hi])]
      exact foldl_insert_mem _ _ _ ((mem_zeroFrames _ _).mpr ⟨exp, hexp, Or.inr rfl⟩) _
  · intro rig_bones file fc hfc i hi
    rcases appendTempAction_kf_shape rig_bones file fc hfc with ⟨d, hshape⟩
    rw [hshape]
    constructor
    · exact List.mem_append_right _ (List.mem_map.mpr
        ⟨((i : Int) + 1) * 10 + 1, (mem_importZeroFrames _ _).mpr ⟨i, hi, Or.inl rfl⟩, rfl⟩)
    · exact List.mem_append_right _ (List.mem_map.mpr
        ⟨((i : Int) + 1) * 10 - 9, (mem_importZeroFrames _ _).mpr ⟨i, hi, Or.inr rfl⟩, rfl⟩)

/-- Witness for C4 at a concrete state and a concrete `.face` file. -/
theorem rest_keyframes_at_slot_boundaries_witness :
    (∃ act2, (FACEIT_OT_ForceZeroFrames_execute
        { emptyState with expression_list := [mkItem "smile" "N" 10]
                          rig_action := some (Action.mk
                            [FCurve.mk (lit "pose.bones[\"jaw\"].location") 0
                              [Keyframe.mk 10 3]]) }).2.rig_action = some act2 ∧
      ∃ fc2 ∈ act2.fcurves,
        fc2.data_path = lit "pose.bones[\"jaw\"].location" ∧ fc2.array_index = 0 ∧
        Keyframe.mk 11 (force_zero_value (lit "pose.bones[\"jaw\"].location") 0) ∈
          fc2.keyframe_points ∧
        Keyframe.mk 1 (force_zero_value (lit "pose.bones[\"jaw\"].location") 0) ∈
          fc2.keyframe_points) ∧
    (Keyframe.mk 11 (importBaseValue (lit "pose.bones[\"jaw\"].location") 0) ∈
      (importChannelFCurve (importZeroFrames 1) (lit "pose.bones[\"jaw\"].location") 0
        []).keyframe_points) := by
  constructor
  · have := rest_keyframes_at_slot_boundaries.1
      { emptyState with expression_list := [mkItem "smile" "N" 10]
                        rig_action := some (Action.mk
                          [FCurve.mk (lit "pose.bones[\"jaw\"].location") 0
                            [Keyframe.mk 10 3]]) }
      (Action.mk [FCurve.mk (lit "pose.bones[\"jaw\"].location") 0 [Keyframe.mk 10 3]])
      rfl (by decide)
      (FCurve.mk (lit "pose.bones[\"jaw\"].location") 0 [Keyframe.mk 10 3])
      (by decide) (by decide) (by decide)
      (mkItem "smile" "N" 10) (by decide)
    simpa using this
  · have := (rest_keyframes_at_slot_boundaries.2
      [lit "jaw"]
      { expressions := [(lit "smile", ExpressionData.mk [] (lit "N") (lit "NONE"))]
        action := [(lit "pose.bones[\"jaw\"].location", [])]
        action_scale := [], eye_dimensions := [] }
      (importChannelFCurve (importZeroFrames 1) (lit "pose.bones[\"jaw\"].location") 0 [])
      (by decide) 0 (by decide)).1
    simpa using this

/-- A removal traversal over a region with no matching frame is the
identity. -/
theorem removeLoop_no_match (f : Int) :
    ∀ (n : Nat) (kps : List Keyframe) (i : Nat), kps.length - i ≤ n →
      (∀ k ∈ kps.drop i, k.frame ≠ f) → removeKeyframesAtLoop f kps i = kps := by
  intro n
  induction n with
  | zero =>
    intro kps i hn _
    unfold removeKeyframesAtLoop
    rw [dif_neg]
    omega
  | succ m ih =>
    intro kps i hn hno
    unfold removeKeyframesAtLoop
    by_cases hi : i < kps.length
    · rw [dif_pos hi]
      have hk : kps.get ⟨i, hi⟩ ∈ kps.drop i := by
        rw [List.drop_eq_getElem_cons hi]
        exact List.mem_cons_self _ _
      rw [if_neg (hno _ hk)]
      refine ih kps (i + 1) (by omega) ?_
      intro k hk2
      refine hno k ?_
      rw [List.drop_eq_getElem_cons hi]
      exact List.mem_cons_of_mem _ hk2
    · rw [dif_neg hi]

/-- Under Blender's distinct-frame invariant, the source's
iterate-and-remove loop removes exactly the keyframes at the target
frame. -/
theorem removeLoop_eq_filter (f : Int) :
    ∀ (n : Nat) (kps : List Keyframe) (i : Nat), kps.length - i ≤ n →
      kps.Pairwise (fun k1 k2 => k1.frame ≠ k2.frame) →
      removeKeyframesAtLoop f kps i =
        kps.take i ++ (kps.drop i).filter (fun k => ¬ k.frame = f) := by
  intro n
  induction n with
  | zero =>
    intro kps i hn _
    unfold removeKeyframesAtLoop
    rw [dif_neg (by omega)]
    rw [List.drop_eq_nil_of_le (by omega), List.take_of_length_le (by omega)]
    simp
  | succ m ih =>
    intro kps i hn hdist
    by_cases hi : i < kps.length
    · have hdropCons := List.drop_eq_getElem_cons hi
      have hdistDrop : (kps.drop i).Pairwise (fun k1 k2 => k1.frame ≠ k2.frame) :=
        hdist.sublist (List.drop_sublist i kps)
      rw [hdropCons] at hdistDrop
      have hafter : ∀ k ∈ kps.drop (i + 1), kps[i].frame ≠ k.frame :=
        (List.pairwise_cons.mp hdistDrop).1
      unfold removeKeyframesAtLoop
      rw [dif_pos hi]
      by_cases hf : (kps.get ⟨i, hi⟩).frame = f
      · rw [if_pos hf]
        simp only [List.get_eq_getElem] at hf
        have hne : ∀ k ∈ kps.drop (i + 1), k.frame ≠ f := by
          intro k hk
          have := hafter k hk
          rw [hf] at this
          exact fun he => this he.symm
        have herase : kps.eraseIdx i = kps.take i ++ kps.drop (i + 1) :=
          List.eraseIdx_eq_take_drop_succ kps i
        have hlenTake : (kps.take i).length = i := by
          rw [List.length_take]
          omega
        have hEraseDrop : (kps.eraseIdx i).drop (i + 1) = (kps.drop (i + 1)).drop 1 := by
          rw [herase, List.drop_append_eq_append_drop, hlenTake,
            List.drop_eq_nil_of_le (by omega : (kps.take i).length ≤ i + 1)]
          simp [hlenTake]
        have hLHS : removeKeyframesAtLoop f (kps.eraseIdx i) (i + 1) = kps.eraseIdx i := by
          refine removeLoop_no_match f ((kps.eraseIdx i).length) _ _ (by omega) ?_
          intro k hk
          rw [hEraseDrop] at hk
          exact hne k (List.mem_of_mem_drop hk)
        rw [hLHS, herase, hdropCons, List.filter_cons]
        have hkeep : (kps.drop (i + 1)).filter (fun k => ¬ k.frame = f) = kps.drop (i + 1) :=
          List.filter_eq_self.mpr (by
            intro k hk
            simpa using hne k hk)
        have hcond : (decide ¬(kps[i].frame = f)) = false := by simp [hf]
        rw [hcond, if_neg (by simp), hkeep]
      · rw [if_neg hf]
        simp only [List.get_eq_getElem] at hf
        have hIH := ih kps (i + 1) (by omega) hdist
        rw [hIH, hdropCons, List.filter_cons]
        have htake : kps.take (i + 1) = kps.take i ++ [kps[i]] := by
          rw [List.take_succ, List.getElem?_eq_getElem hi]
          rfl
        have hcond : (decide ¬(kps[i].frame = f)) = true := by simp [hf]
        rw [hcond, if_pos rfl, htake, List.append_assoc]
        rfl
    · unfold removeKeyframesAtLoop
      rw [dif_neg hi]
      rw [List.drop_eq_nil_of_le (by omega), List.take_of_length_le (by omega)]
      simp

/-- Under Blender's distinct-frame invariant the per-action body of
`_remove_faceit_item` acts on every fcurve exactly as claim C2 states:
drop the keyframes at the removed frame your, shift the later ones back by
10, keep the rest. -/
theorem removeExpressionKeyframes_eq_spec (f : Int) (a : Action)
    (hdist : ∀ fc ∈ a.fcurves, distinctFrames fc) :
    removeExpressionKeyframes f a = Action.mk (a.fcurves.map (removedCurveSpec f)) := by
  unfold removeExpressionKeyframes
  simp only [List.map_map]
  congr 1
  refine List.map_congr_left ?_
  intro fc hfc
  have hloop := removeLoop_eq_filter f fc.keyframe_points.length fc.keyframe_points 0
    (by omega) (hdist fc hfc)
  simp only [List.take_zero, List.drop_zero, List.nil_append] at hloop
  simp only [Function.comp_apply, removedCurveSpec, hloop]

/-- With pairwise-distinct names, finding an item's position by its name
recovers its index. -/
theorem findIdx_name_nodup (l : List ExpressionItem) (hnodup : namesNodup l)
    (i : Nat) (hi : i < l.length) :
    l.findIdx (fun e => e.name = (l.get ⟨i, hi⟩).name) = i := by
  induction l generalizing i with
  | nil => simp at hi
  | cons e rest ih =>
    have hpair : e.name ∉ listNames rest ∧ (listNames rest).Nodup := by
      have := hnodup
      simp only [namesNodup, listNames, List.map_cons, List.nodup_cons] at this
      exact this
    cases i with
    | zero =>
      rw [List.findIdx_cons]
      simp
    | succ j =>
      have hj : j < rest.length := by
        simp only [List.length_cons] at hi
        omega
      have hname : ((e :: rest).get ⟨j + 1, hi⟩).name = (rest.get ⟨j, hj⟩).name := rfl
      rw [List.findIdx_cons, hname]
      have hneq : (decide (e.name = (rest.get ⟨j, hj⟩).name)) = false := by
        have hmem : (rest.get ⟨j, hj⟩).name ∈ listNames rest :=
          List.mem_map_of_mem _ (rest.get_mem _ _)
        simp only [decide_eq_false_iff_not]
        intro he
        exact hpair.1 (he ▸ hmem)
      rw [hneq]
      simp only [cond_false]
      rw [ih hpair.2 j hj]

/-- The frame-range update leaves the expression list unchanged. -/
theorem setFrameRangeFromOw_list (st : SceneState) :
    (setFrameRangeFromOw st).expression_list = st.expression_list := by
  rw [setFrameRangeFromOw]
  cases st.ow_action <;> rfl

/-- The frame-range update leaves the overwrite action unchanged. -/
theorem setFrameRangeFromOw_ow (st : SceneState) :
    (setFrameRangeFromOw st).ow_action = st.ow_action := by
  rw [setFrameRangeFromOw]
  cases h : st.ow_action
  · exact h
  · rfl

/-- The frame-range update leaves the shape action unchanged. -/
theorem setFrameRangeFromOw_shape (st : SceneState) :
    (setFrameRangeFromOw st).shape_action = st.shape_action := by
  rw [setFrameRangeFromOw]
  cases st.ow_action <;> rfl

/-- The frame-range update leaves the corrective action unchanged. -/
theorem setFrameRangeFromOw_cc (st : SceneState) :
    (setFrameRangeFromOw st).cc_action = st.cc_action := by
  rw [setFrameRangeFromOw]
  cases st.ow_action <;> rfl

/-- The frame-range update leaves the active index unchanged. -/
theorem setFrameRangeFromOw_idx (st : SceneState) :
    (setFrameRangeFromOw st).expression_list_index = st.expression_list_index := by
  rw [setFrameRangeFromOw]
  cases st.ow_action <;> rfl

/-- Claim C2: for every expression list with more than one entry,
`FACEIT_OT_RemoveExpressionItem.execute` removes, in each of the
overwrite action, the shape action and the corrective shape-key action
(when present), every keyframe at the removed expression's frame `f`,
shifts every keyframe with frame greater than `f` back by exactly 10 in
all three actions, and decrements by 10 the frame of every remaining
expression whose frame was greater than `f`, leaving all other keyframes
and expression frames unchanged (the `removedCurveSpec`/map forms state
exactly this).  Distinct keyframe frames per fcurve is Blender's fcurve
invariant, and distinct expression names are guaranteed by
`get_expression_name_double_entries` at insertion. -/
theorem remove_renumbers_keyframes (s : SceneState)
    (hlen : 1 < s.expression_list.length)
    (hidx : 0 ≤ s.expression_list_index ∧
      s.expression_list_index.toNat < s.expression_list.length)
    (hnodup : namesNodup s.expression_list)
    (hdistOw : ∀ act, s.ow_action = some act → ∀ fc ∈ act.fcurves, distinctFrames fc)
    (hdistSh : ∀ act, s.shape_action = some act → ∀ fc ∈ act.fcurves, distinctFrames fc)
    (hdistCc : ∀ act, s.cc_action = some act → ∀ fc ∈ act.fcurves, distinctFrames fc) :
    (FACEIT_OT_RemoveExpressionItem_execute [] s).1 = OpResult.FINISHED ∧
    (∀ act, s.ow_action = some act →
      (FACEIT_OT_RemoveExpressionItem_execute [] s).2.ow_action =
        some (Action.mk (act.fcurves.map (removedCurveSpec
          (s.expression_list.get ⟨s.expression_list_index.toNat, hidx.2⟩).frame)))) ∧
    (∀ act, s.shape_action = some act →
      (FACEIT_OT_RemoveExpressionItem_execute [] s).2.shape_action =
        some (Action.mk (act.fcurves.map (removedCurveSpec
          (s.expression_list.get ⟨s.expression_list_index.toNat, hidx.2⟩).frame)))) ∧
    (∀ act, s.cc_action = some act →
      (FACEIT_OT_RemoveExpressionItem_execute [] s).2.cc_action =
        some (Action.mk (act.fcurves.map (removedCurveSpec
          (s.expression_list.get ⟨s.expression_list_index.toNat, hidx.2⟩).frame)))) ∧
    (FACEIT_OT_RemoveExpressionItem_execute [] s).2.expression_list =
      (s.expression_list.eraseIdx s.expression_list_index.toNat).map
        (fun it =>
          if it.frame >
              (s.expression_list.get ⟨s.expression_list_index.toNat, hidx.2⟩).frame then
            { it with frame := it.frame - 10 }
          else it) := by
  have hfind := findIdx_name_nodup s.expression_list hnodup
    s.expression_list_index.toNat hidx.2
  simp only [FACEIT_OT_RemoveExpressionItem_execute, if_neg (by omega : ¬ s.expression_list.length ≤ 1),
    ne_eq, not_true_eq_false, if_false, dif_pos hidx, hfind, frameRangeReturn,
    setFrameRangeFromOw_list, setFrameRangeFromOw_ow, setFrameRangeFromOw_shape,
    setFrameRangeFromOw_cc]
  cases how : s.ow_action with
  | none =>
    simp only [Option.map_none']
    refine ⟨by trivial, ?_, ?_, ?_, by trivial⟩
    · intro act hact
      exact Option.noConfusion hact
    · intro act hact
      simp only [hact, Option.map_some']
      rw [removeExpressionKeyframes_eq_spec _ _ (hdistSh act hact)]
    · intro act hact
      simp only [hact, Option.map_some']
      rw [removeExpressionKeyframes_eq_spec _ _ (hdistCc act hact)]
  | some ow =>
    simp only [Option.map_some']
    refine ⟨by trivial, ?_, ?_, ?_, by trivial⟩
    · intro act hact
      have he : ow = act := by injection hact
      subst he
      rw [removeExpressionKeyframes_eq_spec _ _ (hdistOw ow how)]
    · intro act hact
      simp only [hact, Option.map_some']
      rw [removeExpressionKeyframes_eq_spec _ _ (hdistSh act hact)]
    · intro act hact
      simp only [hact, Option.map_some']
      rw [removeExpressionKeyframes_eq_spec _ _ (hdistCc act hact)]

/-- Witness for C2: removing the first of two expressions from a state
with populated actions. -/
theorem remove_renumbers_keyframes_witness :
    (FACEIT_OT_RemoveExpressionItem_execute [] twoSlotState).1 = OpResult.FINISHED ∧
    (FACEIT_OT_RemoveExpressionItem_execute [] twoSlotState).2.ow_action =
      some (Action.mk [FCurve.mk (lit "pose.bones[\"jaw\"].location") 0
        [Keyframe.mk 1 0, Keyframe.mk 10 2]]) ∧
    (FACEIT_OT_RemoveExpressionItem_execute [] twoSlotState).2.expression_list =
      [mkItem "frown" "N" 10] := by
  have h := remove_renumbers_keyframes twoSlotState (by decide) ⟨by decide, by decide⟩
    (by simp only [namesNodup, listNames]; decide)
    (fun act hact => by
      injection hact with he
      rw [← he]
      simp only [distinctFrames]
      decide)
    (fun act hact => by
      injection hact with he
      rw [← he]
      simp only [distinctFrames]
      decide)
    (fun act hact => Option.noConfusion hact)
  refine ⟨h.1, ?_, ?_⟩
  · rw [h.2.1 _ rfl]
    decide
  · rw [h.2.2.2.2]
    decide

/-- The three passes of `movePass` only ever rewrite the frame component;
as a function of the frame they are the evident composite. -/
theorem movePass_frame_fun (f nif a : Int) (kps : List Keyframe) :
    movePass f nif a kps = kps.map (fun k => Keyframe.mk
      (let x1 := if k.frame = nif then k.frame - a / 2 else k.frame
       let x2 := if x1 = f then x1 + a else x1
       if x2 = nif - a / 2 then x2 - a / 2 else x2) k.value) := by
  unfold movePass
  simp only [List.map_map]
  refine List.map_congr_left ?_
  intro k _
  obtain ⟨kf, kv⟩ := k
  apply Keyframe.ext <;>
    simp [Function.comp_apply, apply_ite Keyframe.frame, apply_ite Keyframe.value]

/-- The three keyframe passes of the move operator amount to swapping the
two slot frames, provided the neighbour slot really sits `add_frame` away
and no keyframe occupies the intermediate parking frame
`new_index_frame - add_frame / 2`. -/
theorem movePass_eq_swap (f nif a : Int) (ha : a = 10 ∨ a = -10) (hnif : nif = f + a)
    (kps : List Keyframe) (hmid : ∀ k ∈ kps, k.frame ≠ nif - a / 2) :
    movePass f nif a kps = kps.map (fun k =>
      if k.frame = f then { k with frame := nif }
      else if k.frame = nif then { k with frame := f }
      else k) := by
  rw [movePass_frame_fun]
  refine List.map_congr_left ?_
  intro k hk
  have hmidk := hmid k hk
  obtain ⟨kf, kv⟩ := k
  simp only at hmidk
  subst hnif
  apply Keyframe.ext
  · simp only [apply_ite Keyframe.frame]
    rcases ha with rfl | rfl
    · rw [show (10 : Int) / 2 = 5 from by decide] at hmidk ⊢
      split_ifs <;> omega
    · rw [show (-10 : Int) / 2 = -5 from by decide] at hmidk ⊢
      split_ifs <;> omega
  · simp [apply_ite Keyframe.value]

/-- Setting the two positions after a prefix. -/
theorem set_set_adjacent {α : Type} (t : List α) (x y : α) (r : List α) (A B : α) :
    ((t ++ x :: y :: r).set t.length A).set (t.length + 1) B = t ++ A :: B :: r := by
  induction t with
  | nil => rfl
  | cons h ts ih => simp [List.set, ih]

/-- Setting the two positions after a prefix, writing the later one first. -/
theorem set_set_adjacent' {α : Type} (t : List α) (x y : α) (r : List α) (A B : α) :
    ((t ++ x :: y :: r).set (t.length + 1) A).set t.length B = t ++ B :: A :: r := by
  induction t with
  | nil => rfl
  | cons h ts ih => simp [List.set, ih]

/-- Erasing right after a prefix. -/
theorem eraseIdx_prefix_len {α : Type} (t : List α) (z : α) (r : List α) :
    (t ++ z :: r).eraseIdx t.length = t ++ r := by
  induction t with
  | nil => rfl
  | cons h ts ih => simp [List.eraseIdx, ih]

/-- Inserting right after a prefix. -/
theorem insertIdx_prefix_len {α : Type} (t : List α) (z : α) (r : List α) :
    (t ++ r).insertIdx t.length z = t ++ z :: r := by
  induction t with
  | nil => rfl
  | cons h ts ih =>
    simp only [List.cons_append, List.length_cons]
    rw [List.insertIdx_succ_cons, ih]

/-- The element right after a prefix. -/
theorem getElem?_prefix_len {α : Type} (t : List α) (z : α) (r : List α) :
    (t ++ z :: r)[t.length]? = some z := by
  rw [List.getElem?_append_right (by omega)]
  simp

/-- `bpy_prop_collection.move` one slot down swaps two adjacent entries. -/
theorem bpyCollectionMove_down {α : Type} (t : List α) (A B : α) (r : List α) :
    bpyCollectionMove (t.length + 1) t.length (t ++ A :: B :: r) = t ++ B :: A :: r := by
  unfold bpyCollectionMove
  have hget : (t ++ A :: B :: r)[t.length + 1]? = some B := by
    have hsplit : t ++ A :: B :: r = (t ++ [A]) ++ B :: r := by simp
    rw [hsplit, show t.length + 1 = (t ++ [A]).length by simp, getElem?_prefix_len]
  rw [hget]
  have herase : (t ++ A :: B :: r).eraseIdx (t.length + 1) = t ++ A :: r := by
    have hsplit : t ++ A :: B :: r = (t ++ [A]) ++ B :: r := by simp
    rw [hsplit, show t.length + 1 = (t ++ [A]).length by simp, eraseIdx_prefix_len]
    simp
  show List.insertIdx t.length B ((t ++ A :: B :: r).eraseIdx (t.length + 1)) = t ++ B :: A :: r
  rw [herase]
  exact insertIdx_prefix_len t B (A :: r)

/-- `bpy_prop_collection.move` one slot up swaps two adjacent entries. -/
theorem bpyCollectionMove_up {α : Type} (t : List α) (A B : α) (r : List α) :
    bpyCollectionMove t.length (t.length + 1) (t ++ B :: A :: r) = t ++ A :: B :: r := by
  unfold bpyCollectionMove
  rw [getElem?_prefix_len, eraseIdx_prefix_len]
  show List.insertIdx (t.length + 1) B (t ++ A :: r) = t ++ A :: B :: r
  have hsplit : t ++ A :: r = (t ++ [A]) ++ r := by simp
  rw [hsplit, show t.length + 1 = (t ++ [A]).length by simp, insertIdx_prefix_len]
  simp

/-- Decomposing a list around two adjacent positions. -/
theorem take_cons_cons_drop {α : Type} (l : List α) (i : Nat) (h : i + 1 < l.length) :
    l = l.take i ++ l.get ⟨i, by omega⟩ :: l.get ⟨i + 1, h⟩ :: l.drop (i + 2) := by
  conv_lhs => rw [← List.take_append_drop i l]
  congr 1
  rw [List.drop_eq_getElem_cons (by omega : i < l.length)]
  congr 1
  rw [List.drop_eq_getElem_cons (by omega : i + 1 < l.length)]
  rfl

/-- Characterization of `FACEIT_OT_MoveExpressionItem.execute` for any
direction other than `'UP'` (the source treats every such direction as
DOWN) at a valid index whose lower neighbour is also valid.  The list is
quantified through its decomposition around the two adjacent positions
and `slotFrames` is the slot invariant relating the two frame fields.
The overwrite- and shape-action conclusions each carry their own
midpoint-freeness hypothesis (no keyframe on `nitem.frame - 5`). -/
theorem moveExecute_down_spec (direction : PyStr) (s : SceneState)
    (t : List ExpressionItem) (item nitem : ExpressionItem) (r : List ExpressionItem)
    (hdir : ¬ direction = lit "UP")
    (hl : s.expression_list = t ++ item :: nitem :: r)
    (hidx : s.expression_list_index = (t.length : Int))
    (hslot : slotFrames s.expression_list) :
    (FACEIT_OT_MoveExpressionItem_execute direction s).1 = OpResult.FINISHED ∧
    (∀ act, s.ow_action = some act →
      (∀ fc ∈ act.fcurves, ∀ k ∈ fc.keyframe_points, k.frame ≠ nitem.frame - 5) →
      (FACEIT_OT_MoveExpressionItem_execute direction s).2.ow_action =
        some (Action.mk (act.fcurves.map (swappedCurveSpec item.frame nitem.frame)))) ∧
    (∀ act, s.shape_action = some act →
      (∀ fc ∈ act.fcurves, ∀ k ∈ fc.keyframe_points, k.frame ≠ nitem.frame - 5) →
      (FACEIT_OT_MoveExpressionItem_execute direction s).2.shape_action =
        some (Action.mk (act.fcurves.map (swappedCurveSpec item.frame nitem.frame)))) ∧
    (∀ act, s.cc_action = some act →
      (FACEIT_OT_MoveExpressionItem_execute direction s).2.cc_action =
        some (Action.mk (shiftFirstCurve (cc_curve_data_path nitem.name) (-10)
          (shiftFirstCurve (cc_curve_data_path item.name) 10 act.fcurves)))) ∧
    (FACEIT_OT_MoveExpressionItem_execute direction s).2.expression_list =
      t ++ { nitem with frame := item.frame } :: { item with frame := nitem.frame } :: r := by
  obtain ⟨el, eli, fs, fe, fcur, auto, sha, owa, cca, ria⟩ := s
  simp only at hl hidx hslot ⊢
  subst hl
  subst hidx
  have hlen : (t ++ item :: nitem :: r).length = t.length + 2 + r.length := by
    simp
    omega
  have hitemQ : (t ++ item :: nitem :: r)[t.length]? = some item :=
    getElem?_prefix_len t item (nitem :: r)
  have hnitemQ : (t ++ item :: nitem :: r)[t.length + 1]? = some nitem := by
    rw [show t ++ item :: nitem :: r = (t ++ [item]) ++ nitem :: r by simp,
      show t.length + 1 = (t ++ [item]).length by simp]
    exact getElem?_prefix_len (t ++ [item]) nitem r
  have hitemGet : ∀ h, (t ++ item :: nitem :: r).get ⟨t.length, h⟩ = item := by
    intro h
    have hq := hitemQ
    rw [List.getElem?_eq_getElem (by omega : t.length < (t ++ item :: nitem :: r).length)] at hq
    simpa [List.get_eq_getElem] using Option.some.inj hq
  have hnitemGet : ∀ h, (t ++ item :: nitem :: r).get ⟨t.length + 1, h⟩ = nitem := by
    intro h
    have hq := hnitemQ
    rw [List.getElem?_eq_getElem
      (by omega : t.length + 1 < (t ++ item :: nitem :: r).length)] at hq
    simpa [List.get_eq_getElem] using Option.some.inj hq
  have hframes : nitem.frame = item.frame + 10 := by
    have h1 := hslot t.length (by omega)
    have h2 := hslot (t.length + 1) (by omega)
    rw [hitemGet] at h1
    rw [hnitemGet] at h2
    push_cast at h1 h2
    omega
  simp only [FACEIT_OT_MoveExpressionItem_execute]
  rw [dif_pos (⟨by omega, by rw [Int.toNat_natCast, hlen]; omega⟩ :
    0 ≤ ((t.length : Int)) ∧
      ((t.length : Int)).toNat < (t ++ item :: nitem :: r).length)]
  simp only [Int.toNat_natCast, hitemGet, one_mul, if_neg hdir]
  rw [if_neg (by
    rw [hlen]
    push_cast
    omega : ¬ ((t.length : Int) + 1 = ((t ++ item :: nitem :: r).length : Int) ∨
      (t.length : Int) + 1 = -1))]
  simp only [show ((t.length : Int) + 1).toNat = t.length + 1 from by omega, hnitemQ]
  refine ⟨by trivial, ?_, ?_, ?_, ?_⟩
  · intro act hact hmidact
    subst hact
    simp only [Option.map_some', Option.some.injEq]
    congr 1
    refine List.map_congr_left ?_
    intro fc hfc
    have hswap := movePass_eq_swap item.frame nitem.frame 10 (Or.inl rfl) (by omega)
      fc.keyframe_points (fun k hk => by
        rw [show (10 : Int) / 2 = 5 from by decide]
        exact hmidact fc hfc k hk)
    simp only [swappedCurveSpec, hswap]
  · intro act hact hmidact
    subst hact
    simp only [Option.map_some', Option.some.injEq]
    congr 1
    refine List.map_congr_left ?_
    intro fc hfc
    have hswap := movePass_eq_swap item.frame nitem.frame 10 (Or.inl rfl) (by omega)
      fc.keyframe_points (fun k hk => by
        rw [show (10 : Int) / 2 = 5 from by decide]
        exact hmidact fc hfc k hk)
    simp only [swappedCurveSpec, hswap]
  · intro act hact
    subst hact
    rfl
  · rw [set_set_adjacent]
    exact bpyCollectionMove_down t _ _ r

/-- Characterization of `FACEIT_OT_MoveExpressionItem.execute` with
direction `'UP'` at a valid index whose upper neighbour is also valid,
stated like `moveExecute_down_spec` with per-conjunct midpoint-freeness
hypotheses (no keyframe on `nitem.frame + 5`). -/
theorem moveExecute_up_spec (s : SceneState)
    (t : List ExpressionItem) (item nitem : ExpressionItem) (r : List ExpressionItem)
    (hl : s.expression_list = t ++ nitem :: item :: r)
    (hidx : s.expression_list_index = (t.length : Int) + 1)
    (hslot : slotFrames s.expression_list) :
    (FACEIT_OT_MoveExpressionItem_execute (lit "UP") s).1 = OpResult.FINISHED ∧
    (∀ act, s.ow_action = some act →
      (∀ fc ∈ act.fcurves, ∀ k ∈ fc.keyframe_points, k.frame ≠ nitem.frame + 5) →
      (FACEIT_OT_MoveExpressionItem_execute (lit "UP") s).2.ow_action =
        some (Action.mk (act.fcurves.map (swappedCurveSpec item.frame nitem.frame)))) ∧
    (∀ act, s.shape_action = some act →
      (∀ fc ∈ act.fcurves, ∀ k ∈ fc.keyframe_points, k.frame ≠ nitem.frame + 5) →
      (FACEIT_OT_MoveExpressionItem_execute (lit "UP") s).2.shape_action =
        some (Action.mk (act.fcurves.map (swappedCurveSpec item.frame nitem.frame)))) ∧
    (∀ act, s.cc_action = some act →
      (FACEIT_OT_MoveExpressionItem_execute (lit "UP") s).2.cc_action =
        some (Action.mk (shiftFirstCurve (cc_curve_data_path nitem.name) 10
          (shiftFirstCurve (cc_curve_data_path item.name) (-10) act.fcurves)))) ∧
    (FACEIT_OT_MoveExpressionItem_execute (lit "UP") s).2.expression_list =
      t ++ { item with frame := nitem.frame } :: { nitem with frame := item.frame } :: r := by
  obtain ⟨el, eli, fs, fe, fcur, auto, sha, owa, cca, ria⟩ := s
  simp only at hl hidx hslot ⊢
  subst hl
  subst hidx
  have hlen : (t ++ nitem :: item :: r).length = t.length + 2 + r.length := by
    simp
    omega
  have hnitemQ : (t ++ nitem :: item :: r)[t.length]? = some nitem :=
    getElem?_prefix_len t nitem (item :: r)
  have hitemQ : (t ++ nitem :: item :: r)[t.length + 1]? = some item := by
    rw [show t ++ nitem :: item :: r = (t ++ [nitem]) ++ item :: r by simp,
      show t.length + 1 = (t ++ [nitem]).length by simp]
    exact getElem?_prefix_len (t ++ [nitem]) item r
  have hnitemGet : ∀ h, (t ++ nitem :: item :: r).get ⟨t.length, h⟩ = nitem := by
    intro h
    have hq := hnitemQ
    rw [List.getElem?_eq_getElem (by omega : t.length < (t ++ nitem :: item :: r).length)] at hq
    simpa [List.get_eq_getElem] using Option.some.inj hq
  have hitemGet : ∀ h, (t ++ nitem :: item :: r).get ⟨t.length + 1, h⟩ = item := by
    intro h
    have hq := hitemQ
    rw [List.getElem?_eq_getElem
      (by omega : t.length + 1 < (t ++ nitem :: item :: r).length)] at hq
    simpa [List.get_eq_getElem] using Option.some.inj hq
  have hframes : nitem.frame = item.frame + -10 := by
    have h1 := hslot t.length (by omega)
    have h2 := hslot (t.length + 1) (by omega)
    rw [hnitemGet] at h1
    rw [hitemGet] at h2
    push_cast at h1 h2
    omega
  simp only [FACEIT_OT_MoveExpressionItem_execute]
  rw [dif_pos (⟨by omega, by rw [show ((t.length : Int) + 1).toNat = t.length + 1 from by omega, hlen]; omega⟩ :
    0 ≤ ((t.length : Int) + 1) ∧
      ((t.length : Int) + 1).toNat < (t ++ nitem :: item :: r).length)]
  simp only [show ((t.length : Int) + 1).toNat = t.length + 1 from by omega, hitemGet,
    show (if lit "UP" = lit "UP" then (-1 : Int) else 1) = -1 from by decide, if_true,
    show ((-1 : Int)) * 10 = -10 from by decide]
  rw [if_neg (by
    rw [hlen]
    push_cast
    omega : ¬ ((t.length : Int) + 1 + -1 = ((t ++ nitem :: item :: r).length : Int) ∨
      (t.length : Int) + 1 + -1 = -1))]
  simp only [show ((t.length : Int) + 1 + -1).toNat = t.length from by omega, hnitemQ]
  refine ⟨by trivial, ?_, ?_, ?_, ?_⟩
  · intro act hact hmidact
    subst hact
    simp only [Option.map_some', Option.some.injEq]
    congr 1
    refine List.map_congr_left ?_
    intro fc hfc
    have hswap := movePass_eq_swap item.frame nitem.frame (-10) (Or.inr rfl) (by omega)
      fc.keyframe_points (fun k hk => by
        have := hmidact fc hfc k hk
        omega)
    simp only [swappedCurveSpec, hswap]
  · intro act hact hmidact
    subst hact
    simp only [Option.map_some', Option.some.injEq]
    congr 1
    refine List.map_congr_left ?_
    intro fc hfc
    have hswap := movePass_eq_swap item.frame nitem.frame (-10) (Or.inr rfl) (by omega)
      fc.keyframe_points (fun k hk => by
        have := hmidact fc hfc k hk
        omega)
    simp only [swappedCurveSpec, hswap]
  · intro act hact
    subst hact
    simp only [Option.map_some', neg_neg]
  · rw [set_set_adjacent']
    exact bpyCollectionMove_up t _ _ r

/-- Claim C3, amended: moving an expression to a valid neighbour index
swaps the two expressions' list positions and their frame fields, and in
both the overwrite and the shape action every keyframe at the moved
expression's frame trades places with every keyframe at the neighbour's
frame while all other keyframes are unchanged — assuming all keyframes
lie on integer frames (built into the embedding) AND, as the
counterexample forces, that no keyframe lies on the midpoint frame
between the two slots (`new_index_frame - add_frame/2`); the corrective
shape-key fcurves of the two expressions are shifted by `add_frame` and
`-add_frame` respectively.  The expression list is quantified through its
decomposition around the two adjacent positions, and `slotFrames` is the
slot invariant (claim C1) relating the two frames. -/
theorem move_swaps_adjacent_slots :
    (∀ (s : SceneState) (t : List ExpressionItem) (item nitem : ExpressionItem)
        (r : List ExpressionItem),
      s.expression_list = t ++ item :: nitem :: r →
      s.expression_list_index = (t.length : Int) →
      slotFrames s.expression_list →
      (∀ act, (s.ow_action = some act ∨ s.shape_action = some act) →
        ∀ fc ∈ act.fcurves, ∀ k ∈ fc.keyframe_points, k.frame ≠ nitem.frame - 5) →
      (FACEIT_OT_MoveExpressionItem_execute (lit "DOWN") s).1 = OpResult.FINISHED ∧
      (∀ act, s.ow_action = some act →
        (FACEIT_OT_MoveExpressionItem_execute (lit "DOWN") s).2.ow_action =
          some (Action.mk (act.fcurves.map (swappedCurveSpec item.frame nitem.frame)))) ∧
      (∀ act, s.shape_action = some act →
        (FACEIT_OT_MoveExpressionItem_execute (lit "DOWN") s).2.shape_action =
          some (Action.mk (act.fcurves.map (swappedCurveSpec item.frame nitem.frame)))) ∧
      (∀ act, s.cc_action = some act →
        (FACEIT_OT_MoveExpressionItem_execute (lit "DOWN") s).2.cc_action =
          some (Action.mk (shiftFirstCurve (cc_curve_data_path nitem.name) (-10)
            (shiftFirstCurve (cc_curve_data_path item.name) 10 act.fcurves)))) ∧
      (FACEIT_OT_MoveExpressionItem_execute (lit "DOWN") s).2.expression_list =
        t ++ { nitem with frame := item.frame } :: { item with frame := nitem.frame } :: r) ∧
    (∀ (s : SceneState) (t : List ExpressionItem) (item nitem : ExpressionItem)
        (r : List ExpressionItem),
      s.expression_list = t ++ nitem :: item :: r →
      s.expression_list_index = (t.length : Int) + 1 →
      slotFrames s.expression_list →
      (∀ act, (s.ow_action = some act ∨ s.shape_action = some act) →
        ∀ fc ∈ act.fcurves, ∀ k ∈ fc.keyframe_points, k.frame ≠ nitem.frame + 5) →
      (FACEIT_OT_MoveExpressionItem_execute (lit "UP") s).1 = OpResult.FINISHED ∧
      (∀ act, s.ow_action = some act →
        (FACEIT_OT_MoveExpressionItem_execute (lit "UP") s).2.ow_action =
          some (Action.mk (act.fcurves.map (swappedCurveSpec item.frame nitem.frame)))) ∧
      (∀ act, s.shape_action = some act →
        (FACEIT_OT_MoveExpressionItem_execute (lit "UP") s).2.shape_action =
          some (Action.mk (act.fcurves.map (swappedCurveSpec item.frame nitem.frame)))) ∧
      (∀ act, s.cc_action = some act →
        (FACEIT_OT_MoveExpressionItem_execute (lit "UP") s).2.cc_action =
          some (Action.mk (shiftFirstCurve (cc_curve_data_path nitem.name) 10
            (shiftFirstCurve (cc_curve_data_path item.name) (-10) act.fcurves)))) ∧
      (FACEIT_OT_MoveExpressionItem_execute (lit "UP") s).2.expression_list =
        t ++ { item with frame := nitem.frame } :: { nitem with frame := item.frame } :: r) := by
  constructor
  · intro s t item nitem r hl hidx hslot hmid
    obtain ⟨h1, h2, h3, h4, h5⟩ :=
      moveExecute_down_spec (lit "DOWN") s t item nitem r (by decide) hl hidx hslot
    exact ⟨h1, fun act hact => h2 act hact (hmid act (Or.inl hact)),
      fun act hact => h3 act hact (hmid act (Or.inr hact)), h4, h5⟩
  · intro s t item nitem r hl hidx hslot hmid
    obtain ⟨h1, h2, h3, h4, h5⟩ := moveExecute_up_spec s t item nitem r hl hidx hslot
    exact ⟨h1, fun act hact => h2 act hact (hmid act (Or.inl hact)),
      fun act hact => h3 act hact (hmid act (Or.inr hact)), h4, h5⟩

/-- Counterexample to claim C3 as stated: all keyframes of `moveMidState`
lie on integer frames, yet moving the first expression DOWN relocates the
keyframe at frame 15 — a frame different from both expressions' frames 10
and 20 — onto frame 10 instead of leaving it unchanged (the third pass of
the move code catches every keyframe on the slot midpoint
`new_index_frame - add_frame / 2`). -/
theorem move_integer_keyframe_not_preserved :
    (FACEIT_OT_MoveExpressionItem_execute (lit "DOWN") moveMidState).1 =
      OpResult.FINISHED ∧
    (FACEIT_OT_MoveExpressionItem_execute (lit "DOWN") moveMidState).2.ow_action =
      some (Action.mk [FCurve.mk (lit "pose.bones[\"jaw\"].location") 0
        [Keyframe.mk 10 7]]) := by
  decide

/-- Witness for the amended C3 at a concrete two-slot state. -/
theorem move_swaps_adjacent_slots_witness :
    (FACEIT_OT_MoveExpressionItem_execute (lit "DOWN") twoSlotState).2.ow_action =
      some (Action.mk [FCurve.mk (lit "pose.bones[\"jaw\"].location") 0
        [Keyframe.mk 20 1, Keyframe.mk 11 0, Keyframe.mk 10 2]]) ∧
    (FACEIT_OT_MoveExpressionItem_execute (lit "DOWN") twoSlotState).2.expression_list =
      [mkItem "frown" "N" 10, mkItem "smile" "N" 20] := by
  have h := move_swaps_adjacent_slots.1 twoSlotState [] (mkItem "smile" "N" 10)
    (mkItem "frown" "N" 20) [] rfl rfl
    (by
      intro i hi
      match i with
      | 0 => rfl
      | 1 => rfl
      | (m + 2) =>
        exfalso
        simp [twoSlotState, emptyState] at hi)
    (by
      intro act hact
      have hact2 : act = Action.mk [FCurve.mk (lit "pose.bones[\"jaw\"].location") 0
          [Keyframe.mk 10 1, Keyframe.mk 11 0, Keyframe.mk 20 2]] := by
        rcases hact with h | h <;> exact (Option.some.inj h).symm
      subst hact2
      decide)
  refine ⟨?_, ?_⟩
  · rw [h.2.1 _ rfl]
    decide
  · rw [h.2.2.2.2]
    decide

/-- The slot invariant only depends on the list of frames. -/
theorem slotFrames_congr (l l2 : List ExpressionItem)
    (h : l.map (fun e => e.frame) = l2.map (fun e => e.frame)) (hs : slotFrames l) :
    slotFrames l2 := by
  have hlen : l.length = l2.length := by
    have := congrArg List.length h
    simpa using this
  intro i hi
  have hil : i < l.length := by omega
  have hq : (l[i]?).map (fun e => e.frame) = (l2[i]?).map (fun e => e.frame) := by
    rw [← List.getElem?_map, ← List.getElem?_map, h]
  rw [List.getElem?_eq_getElem hil, List.getElem?_eq_getElem hi] at hq
  simp only [Option.map_some'] at hq
  have hq2 := Option.some.inj hq
  simp only [List.get_eq_getElem]
  rw [← hq2]
  have := hs i hil
  simpa [List.get_eq_getElem] using this

/-- Nodup survives swapping two adjacent entries. -/
theorem nodup_swap_middle {α : Type} (t : List α) (a b : α) (r : List α)
    (h : (t ++ a :: b :: r).Nodup) : (t ++ b :: a :: r).Nodup := by
  have hperm : (t ++ a :: b :: r).Perm (t ++ b :: a :: r) :=
    List.Perm.append_left t (List.Perm.swap b a r)
  exact hperm.nodup_iff.mp h

/-- Extending a slot-invariant list with an item at the next slot frame. -/
theorem slotFrames_append_one (l : List ExpressionItem) (x : ExpressionItem)
    (hx : x.frame = ((l.length : Int) + 1) * 10) (h : slotFrames l) :
    slotFrames (l ++ [x]) := by
  intro i hi
  simp only [List.length_append, List.length_cons, List.length_nil] at hi
  by_cases hil : i < l.length
  · have : (l ++ [x]).get ⟨i, by simp; omega⟩ = l.get ⟨i, hil⟩ := by
      simp [List.get_eq_getElem, List.getElem_append_left hil]
    rw [this]
    exact h i hil
  · have hieq : i = l.length := by omega
    subst hieq
    have hq : (l ++ [x])[l.length]? = some x := getElem?_prefix_len l x []
    rw [List.getElem?_eq_getElem (by simp)] at hq
    have : (l ++ [x]).get ⟨l.length, by simp⟩ = x := by
      simpa [List.get_eq_getElem] using Option.some.inj hq
    rw [this, hx]

/-- Extending a nodup-name list with a fresh name. -/
theorem namesNodup_append_one (l : List ExpressionItem) (x : ExpressionItem)
    (hx : x.name ∉ listNames l) (h : namesNodup l) : namesNodup (l ++ [x]) := by
  simp only [namesNodup, listNames, List.map_append, List.map_cons, List.map_nil] at h ⊢
  rw [List.nodup_append]
  refine ⟨h, List.nodup_singleton _, ?_⟩
  intro m hm hm1
  simp only [List.mem_singleton] at hm1
  subst hm1
  exact hx hm

/-- Overwriting the last element of a list. -/
theorem set_last {α : Type} (t : List α) (x y : α) :
    (t ++ [x]).set t.length y = t ++ [y] := by
  induction t with
  | nil => rfl
  | cons h ts ih => simp [List.set, ih]

/-- Every listed name is at most the maximal name length. -/
theorem length_le_maxNameLength (names : List PyStr) (m : PyStr) (h : m ∈ names) :
    m.length ≤ maxNameLength names := by
  induction names with
  | nil => simp at h
  | cons n rest ih =>
    simp only [maxNameLength, List.foldr_cons] at *
    rcases List.mem_cons.mp h with h1 | h1
    · subst h1
      exact le_max_left _ _
    · exact le_trans (ih h1) (le_max_right _ _)

/-- With enough fuel relative to the longest listed name, the fresh-name
loop leaves the name pool. -/
theorem freshNameGo_not_mem (names : List PyStr) :
    ∀ (fuel : Nat) (n : PyStr), (∀ m ∈ names, m.length < n.length + 4 * fuel) →
      freshNameGo names fuel n ∉ names := by
  intro fuel
  induction fuel with
  | zero =>
    intro n hlt hmem
    rw [show freshNameGo names 0 n = n from rfl] at hmem
    have := hlt _ hmem
    omega
  | succ fuel ih =>
    intro n hlt
    simp only [freshNameGo]
    by_cases hn : n ∈ names
    · rw [if_pos hn]
      refine ih (n ++ lit ".001") ?_
      intro m hm
      have := hlt m hm
      simp only [List.length_append]
      have h4 : (lit ".001").length = 4 := rfl
      omega
    · rw [if_neg hn]
      exact hn

/-- The double-entry rename returns a name absent from the list. -/
theorem double_entries_not_mem (name : PyStr) (l : List ExpressionItem) :
    get_expression_name_double_entries name l ∉ listNames l := by
  refine freshNameGo_not_mem (listNames l) (maxNameLength (listNames l) + 1) name ?_
  intro m hm
  have := length_le_maxNameLength (listNames l) m hm
  omega

/-- A name not in the pool is returned unchanged by the fresh-name loop. -/
theorem freshNameGo_id (names : List PyStr) (fuel : Nat) (n : PyStr) (h : n ∉ names) :
    freshNameGo names fuel n = n := by
  cases fuel with
  | zero => rfl
  | succ fuel => simp only [freshNameGo, if_neg h]

/-- The remove operator's erase-and-shift list operation preserves both
halves of the list invariant. -/
theorem listInv_erase_shift (l : List ExpressionItem) (j : Nat) (h : j < l.length)
    (hinv : listInv l) :
    listInv ((l.eraseIdx j).map (fun it =>
      if it.frame > (l.get ⟨j, h⟩).frame then { it with frame := it.frame - 10 } else it)) := by
  obtain ⟨hslot, hnodup⟩ := hinv
  have hdecomp : l.eraseIdx j = l.take j ++ l.drop (j + 1) := List.eraseIdx_eq_take_drop_succ l j
  have hjf : (l.get ⟨j, h⟩).frame = ((j : Int) + 1) * 10 := hslot j h
  have htlen : (l.take j).length = j := by
    rw [List.length_take]
    omega
  have hdlen : (l.drop (j + 1)).length = l.length - (j + 1) := List.length_drop _ _
  constructor
  · intro i hi
    simp only [List.length_map, hdecomp, List.length_append, htlen, hdlen] at hi
    by_cases hij : i < j
    · have hig : i < (l.take j ++ l.drop (j + 1)).length := by
        simp only [List.length_append, htlen, hdlen]
        omega
      have hgete : ((l.eraseIdx j).map (fun it =>
          if it.frame > (l.get ⟨j, h⟩).frame then { it with frame := it.frame - 10 }
          else it)).get ⟨i, by simp [List.length_map, hdecomp, List.length_append, htlen, hdlen]; omega⟩ =
          (fun it => if it.frame > (l.get ⟨j, h⟩).frame then { it with frame := it.frame - 10 }
            else it) ((l.eraseIdx j).get ⟨i, by rw [hdecomp]; exact hig⟩) := by
        simp [List.get_eq_getElem, List.getElem_map]
      rw [hgete]
      have hgete2 : (l.eraseIdx j).get ⟨i, by rw [hdecomp]; exact hig⟩ =
          l.get ⟨i, by omega⟩ := by
        simp only [List.get_eq_getElem, hdecomp]
        rw [List.getElem_append_left (by omega : i < (l.take j).length)]
        exact List.getElem_take l
      rw [hgete2]
      have hif : (l.get ⟨i, by omega⟩).frame = ((i : Int) + 1) * 10 := hslot i (by omega)
      simp only [hif, hjf]
      rw [if_neg (by push_cast; omega : ¬ ((i : Int) + 1) * 10 > ((j : Int) + 1) * 10)]
      exact hif
    · have hig : i < (l.take j ++ l.drop (j + 1)).length := by
        simp only [List.length_append, htlen, hdlen]
        omega
      have hgete : ((l.eraseIdx j).map (fun it =>
          if it.frame > (l.get ⟨j, h⟩).frame then { it with frame := it.frame - 10 }
          else it)).get ⟨i, by simp [List.length_map, hdecomp, List.length_append, htlen, hdlen]; omega⟩ =
          (fun it => if it.frame > (l.get ⟨j, h⟩).frame then { it with frame := it.frame - 10 }
            else it) ((l.eraseIdx j).get ⟨i, by rw [hdecomp]; exact hig⟩) := by
        simp [List.get_eq_getElem, List.getElem_map]
      rw [hgete]
      have hi1 : i + 1 < l.length := by omega
      have hgete2 : (l.eraseIdx j).get ⟨i, by rw [hdecomp]; exact hig⟩ =
          l.get ⟨i + 1, hi1⟩ := by
        simp only [List.get_eq_getElem, hdecomp]
        rw [List.getElem_append_right (by omega : (List.take j l).length ≤ i)]
        rw [List.getElem_drop l]
        congr 1
        omega
      rw [hgete2]
      have hif : (l.get ⟨i + 1, hi1⟩).frame = ((i : Int) + 2) * 10 := by
        have := hslot (i + 1) hi1
        rw [this]
        push_cast
        ring
      simp only [hif, hjf]
      rw [if_pos (by push_cast; omega : ((i : Int) + 2) * 10 > ((j : Int) + 1) * 10)]
      show ((i : Int) + 2) * 10 - 10 = ((i : Int) + 1) * 10
      omega
  · have hnames : listNames ((l.eraseIdx j).map (fun it =>
        if it.frame > (l.get ⟨j, h⟩).frame then { it with frame := it.frame - 10 }
        else it)) = listNames (l.eraseIdx j) := by
      simp only [listNames, List.map_map]
      refine List.map_congr_left ?_
      intro it hit
      simp only [Function.comp_apply]
      by_cases hf : it.frame > (l.get ⟨j, h⟩).frame
      · rw [if_pos hf]
      · rw [if_neg hf]
    simp only [namesNodup, hnames]
    have hsub : List.Sublist (l.eraseIdx j) l := List.eraseIdx_sublist l j
    exact List.Nodup.sublist (List.Sublist.map _ hsub) hnodup

/-- A fold commutes with a projection that the step respects. -/
theorem foldl_proj {σ β γ : Type} (proj : σ → γ) (g : σ → β → σ) (F : γ → β → γ)
    (hg : ∀ st e, proj (g st e) = F (proj st) e) :
    ∀ (es : List β) (st : σ), proj (es.foldl g st) = es.foldl F (proj st) := by
  intro es
  induction es with
  | nil => intro st; rfl
  | cons e rest ih =>
    intro st
    simp only [List.foldl_cons, ih, hg]

/-- The add body extends the expression list; with the default
`new_exp_index` it appends at least one item whose frame is the next
10-frame slot. -/
theorem addStep_extends (env : Env) (props : AddExpressionItemProps)
    (recurse : AddExpressionItemProps → SceneState → SceneState) (s : SceneState)
    (hrec : ∀ p2 s2, ∃ t2, (recurse p2 s2).expression_list = s2.expression_list ++ t2) :
    (∃ tail, (addExpressionItemStep env props recurse s).2.expression_list =
      s.expression_list ++ tail) ∧
    (props.new_exp_index = -1 →
      ∃ item tail, (addExpressionItemStep env props recurse s).2.expression_list =
        s.expression_list ++ item :: tail ∧
        item.frame = ((s.expression_list.length : Int) + 1) * 10) := by
  by_cases h1 : props.new_exp_index = -1
  · rw [addExpressionItemStep, if_neg (by simp [h1])]
    by_cases h2 : props.custom_shape
    · simp only [h2, if_true]
      rw [frameRangeReturn]
      rw [setFrameRangeFromOw_list]
      rw [set_last]
      by_cases hau : props.auto_mirror = true ∧
          (if ¬ poll_side_in_expression_name props.side props.expression_name then lit "N"
           else props.side) ≠ lit "N"
      · rw [if_pos hau]
        obtain ⟨t2, ht2⟩ := hrec _ _
        rw [ht2]
        simp only [List.append_assoc, List.cons_append, List.nil_append]
        constructor
        · exact ⟨_, rfl⟩
        · intro h
          exact ⟨_, _, rfl, rfl⟩
      · rw [if_neg hau]
        constructor
        · exact ⟨_, rfl⟩
        · intro h
          exact ⟨_, [], rfl, rfl⟩
    · simp only [h2, Bool.false_eq_true, if_false]
      rw [frameRangeReturn]
      rw [setFrameRangeFromOw_list]
      constructor
      · exact ⟨_, rfl⟩
      · intro h
        exact ⟨_, [], rfl, rfl⟩
  · rw [addExpressionItemStep, if_pos (by simp [h1])]
    exact ⟨⟨[], by simp⟩, fun h => absurd h h1⟩

/-- The add body preserves the expression-list invariant: the appended
item sits at the next slot frame and carries a fresh name. -/
theorem addStep_inv (env : Env) (props : AddExpressionItemProps)
    (recurse : AddExpressionItemProps → SceneState → SceneState) (s : SceneState)
    (hrec : ∀ p2 s2, listInv s2.expression_list → listInv (recurse p2 s2).expression_list)
    (hinv : listInv s.expression_list) :
    listInv (addExpressionItemStep env props recurse s).2.expression_list := by
  have hext : ∀ (sd mr pr : PyStr),
      listInv (s.expression_list ++
        [{ name := get_expression_name_double_entries props.expression_name s.expression_list
           side := sd, frame := ((s.expression_list.length : Int) + 1) * 10
           mirror_name := mr, procedural := pr }]) :=
    fun sd mr pr =>
      ⟨slotFrames_append_one _ _ rfl hinv.1,
       namesNodup_append_one _ _ (double_entries_not_mem _ _) hinv.2⟩
  by_cases h1 : props.new_exp_index = -1
  · rw [addExpressionItemStep, if_neg (by simp [h1])]
    by_cases h2 : props.custom_shape
    · simp only [h2, if_true]
      rw [frameRangeReturn]
      rw [setFrameRangeFromOw_list]
      rw [set_last]
      by_cases hau : props.auto_mirror = true ∧
          (if ¬ poll_side_in_expression_name props.side props.expression_name then lit "N"
           else props.side) ≠ lit "N"
      · rw [if_pos hau]
        apply hrec
        exact hext _ _ _
      · rw [if_neg hau]
        exact hext _ _ _
    · simp only [h2, Bool.false_eq_true, if_false]
      rw [frameRangeReturn]
      rw [setFrameRangeFromOw_list]
      exact hext _ _ _
  · rw [addExpressionItemStep, if_pos (by simp [h1])]
    exact hinv

/-- `addStep_extends` lifted through the fuel wrapper. -/
theorem addAux_extends (env : Env) :
    ∀ (fuel : Nat) (props : AddExpressionItemProps) (s : SceneState),
      (∃ tail, (addExpressionItemAux env props fuel s).2.expression_list =
        s.expression_list ++ tail) ∧
      (props.new_exp_index = -1 →
        ∃ item tail, (addExpressionItemAux env props fuel s).2.expression_list =
          s.expression_list ++ item :: tail ∧
          item.frame = ((s.expression_list.length : Int) + 1) * 10) := by
  intro fuel
  induction fuel with
  | zero =>
    intro props s
    exact addStep_extends env props _ s (fun p2 s2 => ⟨[], by simp⟩)
  | succ fuel ih =>
    intro props s
    exact addStep_extends env props _ s (fun p2 s2 => (ih p2 s2).1)

/-- `addStep_inv` lifted through the fuel wrapper. -/
theorem addAux_inv (env : Env) :
    ∀ (fuel : Nat) (props : AddExpressionItemProps) (s : SceneState),
      listInv s.expression_list →
      listInv (addExpressionItemAux env props fuel s).2.expression_list := by
  intro fuel
  induction fuel with
  | zero =>
    intro props s h
    exact addStep_inv env props _ s (fun p2 s2 hi => hi) h
  | succ fuel ih =>
    intro props s h
    exact addStep_inv env props _ s (fun p2 s2 hi => ih p2 s2 hi) h

/-- Outside the `poll`-guaranteed index range the move operator raises
and leaves the state unchanged. -/
theorem moveExecute_invalid (direction : PyStr) (s : SceneState)
    (h : ¬ (0 ≤ s.expression_list_index ∧
      s.expression_list_index.toNat < s.expression_list.length)) :
    FACEIT_OT_MoveExpressionItem_execute direction s = (OpResult.RAISED, s) := by
  simp only [FACEIT_OT_MoveExpressionItem_execute, dif_neg h]

/-- At a boundary target index the move operator cancels and leaves the
state unchanged (shareable form of claim C8). -/
theorem moveExecute_boundary_eq (direction : PyStr) (s : SceneState)
    (hvalid : 0 ≤ s.expression_list_index ∧
      s.expression_list_index.toNat < s.expression_list.length)
    (hbound : s.expression_list_index + (if direction = lit "UP" then -1 else 1) =
        (s.expression_list.length : Int) ∨
      s.expression_list_index + (if direction = lit "UP" then -1 else 1) = -1) :
    FACEIT_OT_MoveExpressionItem_execute direction s = (OpResult.CANCELLED, s) := by
  simp only [FACEIT_OT_MoveExpressionItem_execute, dif_pos hvalid]
  rw [if_pos hbound]

/-- The move operator preserves the expression-list invariant. -/
theorem move_preserves_inv (direction : PyStr) (s : SceneState)
    (hinv : listInv s.expression_list) :
    listInv (FACEIT_OT_MoveExpressionItem_execute direction s).2.expression_list := by
  by_cases hv : 0 ≤ s.expression_list_index ∧
      s.expression_list_index.toNat < s.expression_list.length
  case neg =>
    rw [moveExecute_invalid direction s hv]
    exact hinv
  by_cases hb : s.expression_list_index + (if direction = lit "UP" then -1 else 1) =
      (s.expression_list.length : Int) ∨
    s.expression_list_index + (if direction = lit "UP" then -1 else 1) = -1
  case pos =>
    rw [moveExecute_boundary_eq direction s hv hb]
    exact hinv
  by_cases hup : direction = lit "UP"
  · subst hup
    rw [if_pos rfl] at hb
    push_neg at hb
    have hige : 1 ≤ s.expression_list_index.toNat := by omega
    have hilen : s.expression_list_index.toNat < s.expression_list.length := hv.2
    have hdec := take_cons_cons_drop s.expression_list
      (s.expression_list_index.toNat - 1) (by omega)
    obtain ⟨h1, h2, h3, h4, h5⟩ := moveExecute_up_spec s _ _ _ _ hdec
      (by simp only [List.length_take]; omega) hinv.1
    rw [h5]
    constructor
    · refine slotFrames_congr s.expression_list _ ?_ hinv.1
      conv_lhs => rw [hdec]
      simp only [List.map_append, List.map_cons, List.map_take, List.map_drop]
    · have hn := hinv.2
      rw [hdec] at hn
      simp only [namesNodup, listNames, List.map_append, List.map_cons] at hn ⊢
      exact nodup_swap_middle _ _ _ _ hn
  · rw [if_neg hup] at hb
    push_neg at hb
    have hilen : s.expression_list_index.toNat + 1 < s.expression_list.length := by omega
    have hdec := take_cons_cons_drop s.expression_list
      s.expression_list_index.toNat hilen
    obtain ⟨h1, h2, h3, h4, h5⟩ := moveExecute_down_spec direction s _ _ _ _ hup hdec
      (by simp only [List.length_take]; omega) hinv.1
    rw [h5]
    constructor
    · refine slotFrames_congr s.expression_list _ ?_ hinv.1
      conv_lhs => rw [hdec]
      simp only [List.map_append, List.map_cons, List.map_take, List.map_drop]
    · have hn := hinv.2
      rw [hdec] at hn
      simp only [namesNodup, listNames, List.map_append, List.map_cons] at hn ⊢
      exact nodup_swap_middle _ _ _ _ hn

/-- The empty expression list satisfies the invariant. -/
theorem listInv_nil : listInv [] := by
  constructor
  · intro i hi
    simp at hi
  · simp [namesNodup, listNames]

/-- The remove operator preserves the expression-list invariant. -/
theorem remove_preserves_inv (remove_item : PyStr) (s : SceneState)
    (hinv : listInv s.expression_list) :
    listInv (FACEIT_OT_RemoveExpressionItem_execute remove_item s).2.expression_list := by
  have key : ∀ (item : ExpressionItem) (j : Nat) (hj : j < s.expression_list.length),
      s.expression_list.get ⟨j, hj⟩ = item →
      listInv ((s.expression_list.eraseIdx
          (s.expression_list.findIdx (fun e => e.name = item.name))).map fun it =>
        if it.frame > item.frame then { it with frame := it.frame - 10 } else it) := by
    intro item j hj hget
    have hfi : s.expression_list.findIdx (fun e => e.name = item.name) = j := by
      have h := findIdx_name_nodup s.expression_list hinv.2 j hj
      rw [hget] at h
      exact h
    rw [hfi]
    have h2 := listInv_erase_shift s.expression_list j hj hinv
    rw [hget] at h2
    exact h2
  rw [FACEIT_OT_RemoveExpressionItem_execute]
  by_cases hlen : s.expression_list.length ≤ 1
  · rw [if_pos hlen]
    simp only [FACEIT_OT_ClearFaceitExpressions_execute]
    exact listInv_nil
  · rw [if_neg hlen]
    by_cases hrem : remove_item ≠ []
    · rw [if_pos hrem]
      cases hfind : s.expression_list.find? (fun e => e.name = remove_item) with
      | none =>
        exact hinv
      | some item =>
        simp only [frameRangeReturn, setFrameRangeFromOw_list]
        have hmem := List.mem_of_find?_eq_some hfind
        obtain ⟨⟨j, hj⟩, hget⟩ := List.mem_iff_get.mp hmem
        exact key item j hj hget
    · rw [if_neg hrem]
      by_cases hvi : 0 ≤ s.expression_list_index ∧
          s.expression_list_index.toNat < s.expression_list.length
      · rw [dif_pos hvi]
        simp only [frameRangeReturn, setFrameRangeFromOw_list]
        exact key _ _ hvi.2 rfl
      · rw [dif_neg hvi]
        exact hinv

/-- With the default index and no custom shape, the add operator appends
exactly the one item the source constructs. -/
theorem add_noncustom_list (env : Env) (props : AddExpressionItemProps) (s : SceneState)
    (h1 : props.new_exp_index = -1) (h2 : props.custom_shape = false) :
    (FACEIT_OT_AddExpressionItem_execute env props s).2.expression_list =
      s.expression_list ++
        [{ name := get_expression_name_double_entries props.expression_name s.expression_list
           side := props.side
           frame := ((s.expression_list.length : Int) + 1) * 10
           mirror_name := if props.mirror_name_overwrite ≠ [] then props.mirror_name_overwrite
             else []
           procedural := props.procedural }] := by
  obtain ⟨el, eli, fs, fe, fcur, auto, sha, owa, cca, ria⟩ := s
  show (addExpressionItemStep env props _ _).2.expression_list = _
  rw [addExpressionItemStep]
  rw [if_neg (by simp [h1])]
  simp only [h2, Bool.false_eq_true, if_false]
  rw [frameRangeReturn]
  rw [setFrameRangeFromOw_list]

/-- The expression list the import body produces: the importer adds of
all file entries folded over the (possibly cleared) starting list. -/
theorem appendActionBody_list (env : Env) (props : AppendActionProps) (file : FaceFile)
    (s : SceneState) :
    (appendActionBody env props file s).2.expression_list =
      importedList file.expressions
        (if (if props.load_method = lit "APPEND" ∧
              (s.expression_list = [] ∨ s.shape_action = none ∨ s.ow_action = none) then
            lit "OVERWRITE" else props.load_method) = lit "OVERWRITE" then []
         else s.expression_list) := by
  have hstep : ∀ (st : SceneState) (e : PyStr × ExpressionData),
      ((FACEIT_OT_AddExpressionItem_execute env
        { expression_name := e.1, new_exp_index := -1
          mirror_name_overwrite := e.2.mirror_name
          side := if e.2.side = [] then lit "N" else e.2.side
          custom_shape := false, auto_mirror := false
          procedural := e.2.procedural } st).2).expression_list =
      st.expression_list ++ [importedExpressionItem st.expression_list e] := by
    intro st e
    rw [add_noncustom_list env _ st rfl rfl]
    congr 2
    simp only [importedExpressionItem]
    by_cases h : e.2.mirror_name = []
    · simp [h]
    · simp [h]
  simp only [appendActionBody]
  rw [setFrameRangeFromOw_list]
  rw [foldl_proj SceneState.expression_list _
    (fun l e => l ++ [importedExpressionItem l e]) hstep]
  rw [importedList]

/-- The importer adds exactly one expression per file entry. -/
theorem importedList_length :
    ∀ (es : List (PyStr × ExpressionData)) (l0 : List ExpressionItem),
      (importedList es l0).length = l0.length + es.length := by
  intro es
  induction es with
  | nil =>
    intro l0
    simp [importedList]
  | cons e rest ih =>
    intro l0
    simp only [importedList, List.foldl_cons] at ih ⊢
    rw [ih]
    simp only [List.length_append, List.length_cons, List.length_nil]
    omega

/-- The imported expression list satisfies the list invariant. -/
theorem importedList_inv :
    ∀ (es : List (PyStr × ExpressionData)) (l0 : List ExpressionItem),
      listInv l0 → listInv (importedList es l0) := by
  intro es
  induction es with
  | nil =>
    intro l0 h
    simpa [importedList] using h
  | cons e rest ih =>
    intro l0 h
    simp only [importedList, List.foldl_cons] at ih ⊢
    exact ih _ ⟨slotFrames_append_one _ _ rfl h.1,
      namesNodup_append_one _ _ (double_entries_not_mem _ _) h.2⟩

/-- The import operator preserves the expression-list invariant. -/
theorem import_preserves_inv (env : Env) (props : AppendActionProps) (file : FaceFile)
    (s : SceneState) (hinv : listInv s.expression_list) :
    listInv (FACEIT_OT_AppendActionToFaceitRig_execute env props file s).2.expression_list := by
  rw [FACEIT_OT_AppendActionToFaceitRig_execute]
  by_cases hcp : props.load_custom_path
  · rw [if_pos hcp]
    by_cases hext : (os_path_splitext props.filepath).2 ≠ lit ".face"
    · rw [if_pos hext]
      exact hinv
    · rw [if_neg hext]
      by_cases hf : env.isfile props.filepath
      · rw [if_neg (by simp [hf])]
        rw [appendActionBody_list]
        apply importedList_inv
        split
        · exact listInv_nil
        · split
          · exact listInv_nil
          · exact hinv
      · rw [if_pos (by simp [hf])]
        exact hinv
  · rw [if_neg hcp]
    rw [appendActionBody_list]
    apply importedList_inv
    split
    · exact listInv_nil
    · split
      · exact listInv_nil
      · exact hinv

/-- Every state reachable by add, move, remove and import operations
satisfies both halves of the expression-list invariant. -/
theorem reachable_listInv (s : SceneState) (h : Reachable s) : listInv s.expression_list := by
  induction h with
  | init s hs =>
    rw [hs]
    exact listInv_nil
  | add s env props _ ih => exact addAux_inv env 1 props s ih
  | move s direction _ ih => exact move_preserves_inv direction s ih
  | remove s remove_item _ ih => exact remove_preserves_inv remove_item s ih
  | importAction s env props file _ ih => exact import_preserves_inv env props file s ih

/-- Claim C1: in every state reachable by sequences of add, move, remove
and import operations, the expression at 0-based list index `i` has its
frame field equal to `(i+1)*10` (`slotFrames`).  In particular,
`FACEIT_OT_AddExpressionItem.execute` with the default `new_exp_index`
appends an item whose frame is `10*(n+1)` for `n` the prior list length
(possibly followed by the auto-mirror's recursive add), and
`FACEIT_OT_AppendActionToFaceitRig.execute` with the OVERWRITE load
method produces exactly one expression per `.face` file entry, the i-th
at frame `(i+1)*10`. -/
theorem expression_slot_invariant :
    (∀ s : SceneState, Reachable s → slotFrames s.expression_list) ∧
    (∀ (env : Env) (props : AddExpressionItemProps) (s : SceneState),
      props.new_exp_index = -1 →
      ∃ item tail,
        (FACEIT_OT_AddExpressionItem_execute env props s).2.expression_list =
          s.expression_list ++ item :: tail ∧
        item.frame = ((s.expression_list.length : Int) + 1) * 10) ∧
    (∀ (env : Env) (props : AppendActionProps) (file : FaceFile) (s : SceneState),
      props.load_custom_path = false → props.load_method = lit "OVERWRITE" →
      (FACEIT_OT_AppendActionToFaceitRig_execute env props file
          s).2.expression_list.length = file.expressions.length ∧
      slotFrames (FACEIT_OT_AppendActionToFaceitRig_execute env props file
        s).2.expression_list) := by
  refine ⟨?_, ?_, ?_⟩
  · intro s h
    exact (reachable_listInv s h).1
  · intro env props s h1
    exact (addAux_extends env 1 props s).2 h1
  · intro env props file s hcp hlm
    have hcond : (if props.load_method = lit "APPEND" ∧
        (s.expression_list = [] ∨ s.shape_action = none ∨ s.ow_action = none) then
        lit "OVERWRITE" else props.load_method) = lit "OVERWRITE" := by
      split
      · rfl
      · exact hlm
    have hlist : (FACEIT_OT_AppendActionToFaceitRig_execute env props file
        s).2.expression_list = importedList file.expressions [] := by
      rw [FACEIT_OT_AppendActionToFaceitRig_execute, if_neg (by simp [hcp]),
        appendActionBody_list, if_pos hcond]
    constructor
    · rw [hlist, importedList_length]
      simp
    · rw [hlist]
      exact (importedList_inv file.expressions [] listInv_nil).1

/-- Witness for C1: an add on the fresh scene, and an OVERWRITE import of
a two-expression file. -/
theorem expression_slot_invariant_witness :
    slotFrames (FACEIT_OT_AddExpressionItem_execute sampleEnv sampleAddProps
      emptyState).2.expression_list ∧
    (∃ item tail,
      (FACEIT_OT_AddExpressionItem_execute sampleEnv sampleAddProps
          emptyState).2.expression_list =
        emptyState.expression_list ++ item :: tail ∧
      item.frame = ((emptyState.expression_list.length : Int) + 1) * 10) ∧
    ((FACEIT_OT_AppendActionToFaceitRig_execute sampleEnv sampleAppendProps sampleFaceFile
        emptyState).2.expression_list.length = sampleFaceFile.expressions.length ∧
      slotFrames (FACEIT_OT_AppendActionToFaceitRig_execute sampleEnv sampleAppendProps
        sampleFaceFile emptyState).2.expression_list) :=
  ⟨expression_slot_invariant.1 _ (Reachable.add emptyState sampleEnv sampleAddProps
      (Reachable.init emptyState rfl)),
   expression_slot_invariant.2.1 sampleEnv sampleAddProps emptyState rfl,
   expression_slot_invariant.2.2 sampleEnv sampleAppendProps sampleFaceFile emptyState rfl rfl⟩

/-- Substring containment is preserved by lowercasing. -/
theorem infix_map_lower (p s : PyStr) (h : p <:+: s) :
    p.map Char.toLower <:+: pyLower s := by
  obtain ⟨u, v, huv⟩ := h
  refine ⟨u.map Char.toLower, v.map Char.toLower, ?_⟩
  rw [← huv]
  simp [pyLower]

/-- A short enough prefix of an append is a prefix of the left part. -/
theorem prefix_append_of_le (p x y : List Char) (h : p <+: x ++ y)
    (hl : p.length ≤ x.length) : p <+: x := by
  have h1 : p = (x ++ y).take p.length := List.prefix_iff_eq_take.mp h
  rw [List.take_append_eq_append_take,
    show p.length - x.length = 0 from by omega, List.take_zero, List.append_nil] at h1
  exact h1 ▸ List.take_prefix p.length x

/-- A short enough suffix of an append is a suffix of the right part. -/
theorem suffix_append_of_le (t x y : List Char) (h : t <:+ x ++ y)
    (hl : t.length ≤ y.length) : t <:+ y := by
  rw [← List.reverse_prefix] at h ⊢
  rw [List.reverse_append] at h
  exact prefix_append_of_le t.reverse y.reverse x.reverse h (by simpa using hl)

/-- Two prefixes of the same list with equal lengths coincide. -/
theorem two_prefixes_eq (p q l : List Char) (hp : p <+: l) (hq : q <+: l)
    (hl : p.length = q.length) : p = q := by
  have h1 := List.prefix_iff_eq_take.mp hp
  have h2 := List.prefix_iff_eq_take.mp hq
  rw [h1, h2, hl]

/-- A prefix longer than the left part covers it and continues into the
right part. -/
theorem prefix_cross (p x y : List Char) (h : p <+: x ++ y) (hlen : x.length < p.length) :
    p.take x.length = x ∧ p.drop x.length <+: y := by
  have htk : p.take x.length = x :=
    two_prefixes_eq _ _ (x ++ y) ((List.take_prefix _ p).trans h) ⟨y, rfl⟩
      (by rw [List.length_take]; omega)
  refine ⟨htk, ?_⟩
  obtain ⟨w, hw⟩ := h
  have hsplit : p ++ w = p.take x.length ++ (p.drop x.length ++ w) := by
    rw [← List.append_assoc, List.take_append_drop]
  rw [hsplit, htk] at hw
  have hy := List.append_cancel_left hw.symm
  exact ⟨w, hy.symm⟩

/-- A substring of an append lies in the left part, in the right part,
or spans the boundary. -/
theorem infix_append_split (p x y : List Char) (h : p <:+: x ++ y) :
    p <:+: x ∨ p <:+: y ∨
      ∃ k, 0 < k ∧ k < p.length ∧ p.take k <:+ x ∧ p.drop k <+: y := by
  obtain ⟨u, v, huv⟩ := h
  have hp : p <+: (x ++ y).drop u.length := by
    rw [← huv, show u ++ p ++ v = u ++ (p ++ v) from by simp, List.drop_left]
    exact ⟨v, rfl⟩
  by_cases h2 : x.length ≤ u.length
  · right
    left
    rw [List.drop_append_eq_append_drop, List.drop_eq_nil_of_le h2,
      List.nil_append] at hp
    exact hp.isInfix.trans (List.drop_suffix _ _).isInfix
  · push_neg at h2
    rw [List.drop_append_eq_append_drop,
      show u.length - x.length = 0 from by omega, List.drop_zero] at hp
    by_cases h1 : p.length ≤ x.length - u.length
    · left
      have hx : p <+: x.drop u.length :=
        prefix_append_of_le p (x.drop u.length) y hp (by rw [List.length_drop]; omega)
      exact hx.isInfix.trans (List.drop_suffix _ _).isInfix
    · right
      right
      push_neg at h1
      have hcross := prefix_cross p (x.drop u.length) y hp (by rw [List.length_drop]; omega)
      refine ⟨x.length - u.length, by omega, by omega, ?_, ?_⟩
      · rw [show x.length - u.length = (x.drop u.length).length from by
          rw [List.length_drop]]
        rw [hcross.1]
        exact List.drop_suffix _ _
      · rw [show x.length - u.length = (x.drop u.length).length from by
          rw [List.length_drop]]
        exact hcross.2

/-- `str.replace` without any occurrence is the identity. -/
theorem pyReplace_not_occur (old new : PyStr) :
    ∀ s : PyStr, ¬ old <:+: s → pyReplace old new s = s := by
  intro s
  induction s with
  | nil =>
    intro h
    simp only [pyReplace]
  | cons c cs ih =>
    intro h
    rw [pyReplace, if_neg (by
      rintro ⟨h1, h2⟩
      exact h h2.isInfix)]
    rw [ih (fun hin => h (hin.trans ⟨[c], [], by simp⟩))]

/-- `str.replace` at an occurrence that no earlier position matches:
replace it and continue after. -/
theorem pyReplace_first (old new : PyStr) (hne : old ≠ []) :
    ∀ (a b : PyStr), ¬ old <:+: a →
      (∀ k, 0 < k → k < old.length → ¬ (old.take k <:+ a ∧ old.drop k <+: (old ++ b))) →
      pyReplace old new (a ++ old ++ b) = a ++ new ++ pyReplace old new b := by
  intro a
  induction a with
  | nil =>
    intro b ha hcross
    cases old with
    | nil => exact absurd rfl hne
    | cons oc old' =>
      rw [List.nil_append, List.cons_append, pyReplace, if_pos
        ⟨hne, ⟨b, by simp⟩⟩]
      simp only [List.length_cons, Nat.add_sub_cancel, List.nil_append]
      rw [List.drop_left]
  | cons c a' ih =>
    intro b ha hcross
    rw [show (c :: a') ++ old ++ b = c :: (a' ++ old ++ b) from by simp]
    rw [pyReplace]
    rw [if_neg ?hno]
    case hno =>
      rintro ⟨h1, h2⟩
      rw [show c :: (a' ++ old ++ b) = (c :: a') ++ (old ++ b) from by simp] at h2
      by_cases hlen : old.length ≤ (c :: a').length
      · exact ha (prefix_append_of_le old (c :: a') (old ++ b) h2 hlen).isInfix
      · push_neg at hlen
        have hcr := prefix_cross old (c :: a') (old ++ b) h2 hlen
        refine hcross (c :: a').length (by simp) hlen ⟨?_, hcr.2⟩
        rw [hcr.1]
    rw [ih b (fun hin => ha (hin.trans ⟨[c], [], by simp⟩))
      (fun k hk1 hk2 hkc => hcross k hk1 hk2 ⟨hkc.1.trans ⟨[c], by simp⟩, hkc.2⟩)]
    simp

/-- A suffix of an append is a suffix of the right part or covers it. -/
theorem suffix_append_split (t x y : List Char) (h : t <:+ x ++ y) :
    t <:+ y ∨ ∃ u, t = u ++ y ∧ u <:+ x := by
  by_cases hl : t.length ≤ y.length
  · left
    exact suffix_append_of_le t x y h hl
  · right
    push_neg at hl
    rw [← List.reverse_prefix, List.reverse_append] at h
    have hcr := prefix_cross t.reverse y.reverse x.reverse h (by simpa using hl)
    refine ⟨(t.reverse.drop y.reverse.length).reverse, ?_, ?_⟩
    · have hsplit : t.reverse = t.reverse.take y.reverse.length ++
          t.reverse.drop y.reverse.length := by simp
      rw [hcr.1] at hsplit
      have := congrArg List.reverse hsplit
      rw [List.reverse_reverse, List.reverse_append, List.reverse_reverse] at this
      exact this
    · rw [← List.reverse_prefix, List.reverse_reverse]
      exact hcr.2

/-- A cased variant cannot occur where its lowercase form does not. -/
theorem not_cased_infix (cased lc : PyStr) (hmap : cased.map Char.toLower = lc)
    (s : PyStr) (h : ¬ lc <:+: pyLower s) : ¬ cased <:+: s :=
  fun hin => h (hmap ▸ infix_map_lower cased s hin)

/-- Refute an occurrence anywhere in `x ++ mid ++ b` from the absence in
each part and decidable boundary conditions on the concrete `mid`. -/
theorem not_infix_triple (p x mid b : PyStr)
    (hx : ¬ p <:+: x) (hb : ¬ p <:+: b) (hmid : ¬ p <:+: mid)
    (hc1 : ∀ k, 0 < k → k < p.length → ¬ p.drop k <+: mid)
    (hc2 : ∀ k, 0 < k → k < p.length → ¬ p.take k <:+ mid)
    (hlen : p.length ≤ mid.length + 1) :
    ¬ p <:+: x ++ mid ++ b := by
  intro h
  rw [List.append_assoc] at h
  rcases infix_append_split p x (mid ++ b) h with h1 | h1 | ⟨k, hk1, hk2, hk3, hk4⟩
  · exact hx h1
  · rcases infix_append_split p mid b h1 with h2 | h2 | ⟨k, hk1, hk2, hk3, hk4⟩
    · exact hmid h2
    · exact hb h2
    · exact hc2 k hk1 hk2 hk3
  · exact hc1 k hk1 hk2
      (prefix_append_of_le _ _ _ hk4 (by rw [List.length_drop]; omega))

/-- Refute a suffix of `x ++ mid ++ b` from its absence at the tail of
`b` and decidable conditions on the concrete `mid`. -/
theorem not_suffix_triple (t x mid b : PyStr)
    (hb : ¬ t <:+ b)
    (hcross : ∀ m, 0 < m → m ≤ t.length → ¬ t.take m <:+ mid)
    (hlen : t.length ≤ mid.length) :
    ¬ t <:+ x ++ mid ++ b := by
  intro h
  rcases suffix_append_split t (x ++ mid) b h with h1 | ⟨u, hu1, hu2⟩
  · exact hb h1
  · rcases Nat.eq_zero_or_pos u.length with hz | hpos
    · rw [List.eq_nil_of_length_eq_zero hz, List.nil_append] at hu1
      exact hb (hu1 ▸ List.suffix_refl t)
    · have hul : u.length ≤ t.length := by
        rw [hu1]
        simp
      have husuf : u <:+ mid := suffix_append_of_le u x mid hu2 (by omega)
      have hut : t.take u.length = u := by
        rw [hu1, List.take_left]
      exact hcross u.length hpos hul (by rw [hut]; exact husuf)

/-- Equal snoc lists have equal last elements. -/
theorem snoc_last_eq (l u : List Char) (c d : Char) (h : l ++ [c] = u ++ [d]) : c = d := by
  have := (List.append_inj' h (by simp)).2
  injection this

/-- A one-element suffix is the last element. -/
theorem singleton_suffix_snoc (c d : Char) (l : List Char) (h : [c] <:+ l ++ [d]) : c = d := by
  obtain ⟨q, hq⟩ := h
  exact snoc_last_eq (l) (q) d c hq.symm |>.symm

/-- Lowercasing distributes over append. -/
theorem pyLower_append (x y : PyStr) : pyLower (x ++ y) = pyLower x ++ pyLower y := by
  simp [pyLower]

/-- A satisfied left condition classifies the name as L. -/
theorem get_side_of_left (name : PyStr) (h : left_condition name = true) :
    get_side name = lit "L" := by
  simp [get_side, h]

/-- A name ending in a letter lowercasing to `r`, with no `left`
substring before it, fails the left condition. -/
theorem left_condition_snoc_false (q : PyStr) (c : Char)
    (hc : Char.toLower c = 'r')
    (hnl : ¬ lit "left" <:+: pyLower q) :
    left_condition (q ++ [c]) = false := by
  have hlow : pyLower (q ++ [c]) = pyLower q ++ ['r'] := by
    rw [pyLower_append]
    simp [pyLower, hc]
  simp only [left_condition, Bool.or_eq_false_iff, pyIn, pyEndsWith,
    decide_eq_false_iff_not]
  refine ⟨⟨?_, ?_⟩, ?_⟩
  · rw [hlow]
    intro h
    rcases infix_append_split _ _ _ h with h1 | h1 | ⟨k, hk1, hk2, hk3, hk4⟩
    · exact hnl h1
    · have := h1.length_le
      simp [lit] at this
    · have hk2' : k < 4 := hk2
      have hlen := hk4.length_le
      have hdl : ((lit "left").drop k).length = 4 - k := by
        rw [List.length_drop]
        rfl
      rw [hdl] at hlen
      simp only [List.length_cons, List.length_nil] at hlen
      have hk3' : k = 3 := by omega
      subst hk3'
      exact absurd hk4 (by decide)
  · rw [hlow]
    intro h
    rcases suffix_append_split _ _ _ h with h1 | ⟨u, hu1, hu2⟩
    · have := h1.isInfix.length_le
      simp [lit] at this
    · rw [show lit "_l" = ['_'] ++ ['l'] from rfl] at hu1
      have := snoc_last_eq _ _ _ _ hu1
      exact absurd this (by decide)
  · intro h
    have := singleton_suffix_snoc _ _ _ h
    rw [← this] at hc
    exact absurd hc (by decide)

/-- Such a name is classified R when the right condition holds. -/
theorem get_side_snoc_R (q : PyStr) (c : Char)
    (hc : Char.toLower c = 'r')
    (hnl : ¬ lit "left" <:+: pyLower q)
    (hrc : right_condition (q ++ [c]) = true) :
    get_side (q ++ [c]) = lit "R" := by
  simp [get_side, left_condition_snoc_false q c hc hnl, hrc]

/-- A name around a right-marker with no stray `left` substrings and no
L-suffix fails the left condition. -/
theorem left_condition_triple_false (a new b : PyStr)
    (hlow : pyLower new = lit "right")
    (hla : ¬ lit "left" <:+: pyLower a) (hlb : ¬ lit "left" <:+: pyLower b)
    (hsl : ¬ lit "_l" <:+ pyLower (a ++ new ++ b))
    (hL : ¬ lit "L" <:+ (a ++ new ++ b)) :
    left_condition (a ++ new ++ b) = false := by
  simp only [left_condition, Bool.or_eq_false_iff, pyIn, pyEndsWith,
    decide_eq_false_iff_not]
  refine ⟨⟨?_, hsl⟩, hL⟩
  rw [pyLower_append, pyLower_append, hlow]
  refine not_infix_triple _ _ _ _ hla hlb (by decide) ?_ ?_ (by decide)
  · intro k h1 h2
    have h2' : k < 4 := h2
    interval_cases k <;> decide
  · intro k h1 h2
    have h2' : k < 4 := h2
    interval_cases k <;> decide

/-- Such a name is classified R. -/
theorem get_side_triple_R (a new b : PyStr)
    (hlow : pyLower new = lit "right")
    (hla : ¬ lit "left" <:+: pyLower a) (hlb : ¬ lit "left" <:+: pyLower b)
    (hsl : ¬ lit "_l" <:+ pyLower (a ++ new ++ b))
    (hL : ¬ lit "L" <:+ (a ++ new ++ b)) :
    get_side (a ++ new ++ b) = lit "R" := by
  have hr : right_condition (a ++ new ++ b) = true := by
    simp only [right_condition, Bool.or_eq_true, pyIn, decide_eq_true_eq]
    rw [pyLower_append, pyLower_append, hlow]
    exact Or.inl (Or.inl (List.infix_append _ _ _))
  rw [get_side, left_condition_triple_false a new b hlow hla hlb hsl hL, hr]
  simp

/-- The marker is found in its own decomposition. -/
theorem pyIn_eq_true_of_mid (mid a b : PyStr) : pyIn mid (a ++ mid ++ b) = true := by
  simp only [pyIn, decide_eq_true_eq]
  exact List.infix_append _ _ _

/-- Bool form of the triple-refutation. -/
theorem pyIn_eq_false_triple (p a mid b : PyStr)
    (hx : ¬ p <:+: a) (hb : ¬ p <:+: b) (hmid : ¬ p <:+: mid)
    (hc1 : ∀ k, 0 < k → k < p.length → ¬ p.drop k <+: mid)
    (hc2 : ∀ k, 0 < k → k < p.length → ¬ p.take k <:+ mid)
    (hlen : p.length ≤ mid.length + 1) :
    pyIn p (a ++ mid ++ b) = false := by
  simp only [pyIn, decide_eq_false_iff_not]
  exact not_infix_triple p a mid b hx hb hmid hc1 hc2 hlen

/-- `str.replace` of a unique marker occurrence rewrites just it. -/
theorem replace_marker (old new a b : PyStr) (hne : old ≠ [])
    (ha : ¬ old <:+: a) (hb : ¬ old <:+: b)
    (hc : ∀ k, 0 < k → k < old.length → ¬ old.drop k <+: old) :
    pyReplace old new (a ++ old ++ b) = a ++ new ++ b := by
  rw [pyReplace_first old new hne a b ha ?hcr]
  case hcr =>
    intro k h1 h2 hkc
    exact hc k h1 h2 (prefix_append_of_le _ _ _ hkc.2 (by rw [List.length_drop]; omega))
  rw [pyReplace_not_occur old new b hb]

/-- The mirror name of a unique left-marker name: the marker is replaced
by its right counterpart. -/
theorem get_mirror_triple_L (a mid b : PyStr)
    (hm : mid = lit "Left" ∨ mid = lit "left" ∨ mid = lit "LEFT")
    (hla : ¬ lit "left" <:+: pyLower a) (hlb : ¬ lit "left" <:+: pyLower b) :
    get_mirror_name (lit "L") (a ++ mid ++ b) =
      a ++ (if mid = lit "Left" then lit "Right" else if mid = lit "left" then lit "right"
            else lit "RIGHT") ++ b := by
  have hcasedA : ∀ p : PyStr, p.map Char.toLower = lit "left" → ¬ p <:+: a :=
    fun p hp => not_cased_infix p (lit "left") hp a hla
  have hcasedB : ∀ p : PyStr, p.map Char.toLower = lit "left" → ¬ p <:+: b :=
    fun p hp => not_cased_infix p (lit "left") hp b hlb
  rcases hm with rfl | rfl | rfl
  · rw [get_mirror_name, if_pos rfl,
      if_pos (pyIn_eq_true_of_mid (lit "Left") a b)]
    rw [replace_marker _ _ a b (by decide) (hcasedA _ (by decide)) (hcasedB _ (by decide)) ?hc]
    case hc =>
      intro k h1 h2
      have h2' : k < 4 := h2
      interval_cases k <;> decide
    simp
  · rw [get_mirror_name, if_pos rfl]
    rw [pyIn_eq_false_triple (lit "Left") a (lit "left") b
      (hcasedA _ (by decide)) (hcasedB _ (by decide)) (by decide)
      (fun k h1 h2 => by
        have h2' : k < 4 := h2
        interval_cases k <;> decide)
      (fun k h1 h2 => by
        have h2' : k < 4 := h2
        interval_cases k <;> decide)
      (by decide)]
    rw [if_neg (by simp), if_pos (pyIn_eq_true_of_mid (lit "left") a b)]
    rw [replace_marker _ _ a b (by decide) (hcasedA _ (by decide)) (hcasedB _ (by decide)) ?hc]
    case hc =>
      intro k h1 h2
      have h2' : k < 4 := h2
      interval_cases k <;> decide
    simp
    decide
  · rw [get_mirror_name, if_pos rfl]
    rw [pyIn_eq_false_triple (lit "Left") a (lit "LEFT") b
      (hcasedA _ (by decide)) (hcasedB _ (by decide)) (by decide)
      (fun k h1 h2 => by
        have h2' : k < 4 := h2
        interval_cases k <;> decide)
      (fun k h1 h2 => by
        have h2' : k < 4 := h2
        interval_cases k <;> decide)
      (by decide)]
    rw [pyIn_eq_false_triple (lit "left") a (lit "LEFT") b
      (hcasedA _ (by decide)) (hcasedB _ (by decide)) (by decide)
      (fun k h1 h2 => by
        have h2' : k < 4 := h2
        interval_cases k <;> decide)
      (fun k h1 h2 => by
        have h2' : k < 4 := h2
        interval_cases k <;> decide)
      (by decide)]
    rw [if_neg (by simp), if_neg (by simp),
      if_pos (pyIn_eq_true_of_mid (lit "LEFT") a b)]
    rw [replace_marker _ _ a b (by decide) (hcasedA _ (by decide)) (hcasedB _ (by decide)) ?hc]
    case hc =>
      intro k h1 h2
      have h2' : k < 4 := h2
      interval_cases k <;> decide
    simp
    decide


/-- The mirror name of a unique right-marker name: the marker is replaced
by its left counterpart. -/
theorem get_mirror_triple_R (a mid b : PyStr)
    (hm : mid = lit "Right" ∨ mid = lit "right" ∨ mid = lit "RIGHT")
    (hla : ¬ lit "right" <:+: pyLower a) (hlb : ¬ lit "right" <:+: pyLower b) :
    get_mirror_name (lit "R") (a ++ mid ++ b) =
      a ++ (if mid = lit "Right" then lit "Left" else if mid = lit "right" then lit "left"
            else lit "LEFT") ++ b := by
  have hcasedA : ∀ p : PyStr, p.map Char.toLower = lit "right" → ¬ p <:+: a :=
    fun p hp => not_cased_infix p (lit "right") hp a hla
  have hcasedB : ∀ p : PyStr, p.map Char.toLower = lit "right" → ¬ p <:+: b :=
    fun p hp => not_cased_infix p (lit "right") hp b hlb
  rcases hm with rfl | rfl | rfl
  · rw [get_mirror_name, if_neg (by decide), if_pos rfl,
      if_pos (pyIn_eq_true_of_mid (lit "Right") a b)]
    rw [replace_marker _ _ a b (by decide) (hcasedA _ (by decide)) (hcasedB _ (by decide)) ?hc]
    case hc =>
      intro k h1 h2
      have h2' : k < 5 := h2
      interval_cases k <;> decide
    simp
  · rw [get_mirror_name, if_neg (by decide), if_pos rfl]
    rw [pyIn_eq_false_triple (lit "Right") a (lit "right") b
      (hcasedA _ (by decide)) (hcasedB _ (by decide)) (by decide)
      (fun k h1 h2 => by
        have h2' : k < 5 := h2
        interval_cases k <;> decide)
      (fun k h1 h2 => by
        have h2' : k < 5 := h2
        interval_cases k <;> decide)
      (by decide)]
    rw [if_neg (by simp), if_pos (pyIn_eq_true_of_mid (lit "right") a b)]
    rw [replace_marker _ _ a b (by decide) (hcasedA _ (by decide)) (hcasedB _ (by decide)) ?hc]
    case hc =>
      intro k h1 h2
      have h2' : k < 5 := h2
      interval_cases k <;> decide
    simp
    decide
  · rw [get_mirror_name, if_neg (by decide), if_pos rfl]
    rw [pyIn_eq_false_triple (lit "Right") a (lit "RIGHT") b
      (hcasedA _ (by decide)) (hcasedB _ (by decide)) (by decide)
      (fun k h1 h2 => by
        have h2' : k < 5 := h2
        interval_cases k <;> decide)
      (fun k h1 h2 => by
        have h2' : k < 5 := h2
        interval_cases k <;> decide)
      (by decide)]
    rw [pyIn_eq_false_triple (lit "right") a (lit "RIGHT") b
      (hcasedA _ (by decide)) (hcasedB _ (by decide)) (by decide)
      (fun k h1 h2 => by
        have h2' : k < 5 := h2
        interval_cases k <;> decide)
      (fun k h1 h2 => by
        have h2' : k < 5 := h2
        interval_cases k <;> decide)
      (by decide)]
    rw [if_neg (by simp), if_neg (by simp),
      if_pos (pyIn_eq_true_of_mid (lit "RIGHT") a b)]
    rw [replace_marker _ _ a b (by decide) (hcasedA _ (by decide)) (hcasedB _ (by decide)) ?hc]
    case hc =>
      intro k h1 h2
      have h2' : k < 5 := h2
      interval_cases k <;> decide
    simp
    decide

/-- A two-element suffix of a snoc pins the last element and leaves a
one-element suffix. -/
theorem suffix_snoc_pair (t : PyStr) (u v : Char) (ht : t = [u] ++ [v]) (l : PyStr)
    (c : Char) (h : t <:+ l ++ [c]) :
    v = c ∧ [u] <:+ l := by
  subst ht
  rcases suffix_append_split _ _ _ h with h1 | ⟨w, hw1, hw2⟩
  · have := h1.length_le
    simp at this
  · have hinj := List.append_inj' hw1 (by simp)
    have h2 := hinj.2
    simp only [List.cons.injEq, and_true] at h2
    refine ⟨h2, ?_⟩
    rw [← hinj.1] at hw2
    exact hw2

/-- A snoc list is non-empty. -/
theorem append_singleton_ne_nil (l : PyStr) (c : Char) : l ++ [c] ≠ [] := by
  intro h
  have := congrArg List.length h
  simp at this

/-- The suffix-driven mirror of an L-name with no `left` substring:
non-empty and classified R. -/
theorem mirror_suffix_L (name : PyStr)
    (hnl : ¬ lit "left" <:+: pyLower name)
    (hsfx : pyEndsWith (pyLower name) (lit "_l") = true ∨ pyEndsWith name (lit "L") = true) :
    get_mirror_name (lit "L") name ≠ [] ∧
    get_side (get_mirror_name (lit "L") name) = lit "R" := by
  have hlc1 : pyIn (lit "Left") name = false := by
    simp only [pyIn, decide_eq_false_iff_not]
    exact not_cased_infix _ _ (by decide) name hnl
  have hlc2 : pyIn (lit "left") name = false := by
    simp only [pyIn, decide_eq_false_iff_not]
    exact not_cased_infix _ _ (by decide) name hnl
  have hlc3 : pyIn (lit "LEFT") name = false := by
    simp only [pyIn, decide_eq_false_iff_not]
    exact not_cased_infix _ _ (by decide) name hnl
  rw [get_mirror_name, if_pos rfl, hlc1, hlc2, hlc3]
  simp only [Bool.false_eq_true, if_false]
  by_cases hul : pyEndsWith (pyLower name) (lit "_l") = true
  · rw [hul]
    simp only [if_true]
    have hsuf : lit "_l" <:+ pyLower name := by
      simpa [pyEndsWith] using hul
    have hne : name ≠ [] := by
      intro h
      subst h
      have hl := hsuf.length_le
      rw [show (pyLower []).length = 0 from rfl] at hl
      exact absurd hl (by decide)
    have hsplit : name = name.dropLast ++ [name.getLast hne] :=
      (List.dropLast_append_getLast hne).symm
    have hlow_split : pyLower name =
        pyLower name.dropLast ++ [Char.toLower (name.getLast hne)] := by
      conv_lhs => rw [hsplit]
      rw [pyLower_append]
      rfl
    rw [hlow_split] at hsuf
    have hpair := suffix_snoc_pair _ '_' 'l' rfl _ _ hsuf
    have hlcl : Char.toLower (name.getLast hne) = 'l' := hpair.1.symm
    have hq_ : ['_'] <:+ pyLower name.dropLast := hpair.2
    have hgld : name.getLastD ' ' = name.getLast hne := by
      conv_lhs => rw [hsplit]
      exact List.getLastD_concat _ _ _
    have hnlq : ¬ lit "left" <:+: pyLower name.dropLast := by
      intro h
      exact hnl (by
        rw [hlow_split]
        exact h.trans (List.prefix_append _ _).isInfix)
    rw [hgld, show (lit "r" : PyStr) = ['r'] from by decide,
      show (lit "R" : PyStr) = ['R'] from by decide]
    by_cases hlow : (name.getLast hne).isLower
    · rw [if_pos hlow]
      refine ⟨append_singleton_ne_nil _ _, ?_⟩
      refine get_side_snoc_R _ 'r' (by decide) hnlq ?_
      simp only [right_condition, Bool.or_eq_true]
      refine Or.inl (Or.inr ?_)
      simp only [pyEndsWith, decide_eq_true_eq]
      have hlr : pyLower (name.dropLast ++ ['r']) = pyLower name.dropLast ++ ['r'] := by
        rw [pyLower_append, show pyLower ['r'] = ['r'] from by decide]
      rw [hlr]
      obtain ⟨w, hw⟩ := hq_
      exact ⟨w, by rw [show (lit "_r" : PyStr) = ['_'] ++ ['r'] from by decide,
        ← List.append_assoc, hw]⟩
    · rw [if_neg hlow]
      refine ⟨append_singleton_ne_nil _ _, ?_⟩
      refine get_side_snoc_R _ 'R' (by decide) hnlq ?_
      simp only [right_condition, Bool.or_eq_true]
      refine Or.inr ?_
      simp only [pyEndsWith, decide_eq_true_eq]
      exact ⟨name.dropLast, by rw [show (lit "R" : PyStr) = ['R'] from by decide]⟩
  · have hLs : pyEndsWith name (lit "L") = true := hsfx.resolve_left hul
    rw [eq_false_of_ne_true hul]
    simp only [Bool.false_eq_true, if_false]
    rw [hLs]
    simp only [if_true]
    have hsufL : lit "L" <:+ name := by
      simpa [pyEndsWith] using hLs
    obtain ⟨q0, hq0⟩ := hsufL
    have hdrop : name.dropLast = q0 := by
      rw [← hq0, show (lit "L" : PyStr) = ['L'] from by decide]
      exact List.dropLast_concat
    have hnlq0 : ¬ lit "left" <:+: pyLower q0 := by
      intro h
      refine hnl ?_
      rw [← hq0, pyLower_append]
      exact h.trans (List.prefix_append _ _).isInfix
    rw [hdrop, show (lit "R" : PyStr) = ['R'] from by decide]
    refine ⟨append_singleton_ne_nil _ _, ?_⟩
    refine get_side_snoc_R _ 'R' (by decide) hnlq0 ?_
    simp only [right_condition, Bool.or_eq_true]
    refine Or.inr ?_
    simp only [pyEndsWith, decide_eq_true_eq]
    exact ⟨q0, by rw [show (lit "R" : PyStr) = ['R'] from by decide]⟩
/-- The suffix-driven mirror of an R-name with no `right` substring:
non-empty and classified L. -/
theorem mirror_suffix_R (name : PyStr)
    (hnr : ¬ lit "right" <:+: pyLower name)
    (hsfx : pyEndsWith (pyLower name) (lit "_r") = true ∨ pyEndsWith name (lit "R") = true) :
    get_mirror_name (lit "R") name ≠ [] ∧
    get_side (get_mirror_name (lit "R") name) = lit "L" := by
  have hlc1 : pyIn (lit "Right") name = false := by
    simp only [pyIn, decide_eq_false_iff_not]
    exact not_cased_infix _ _ (by decide) name hnr
  have hlc2 : pyIn (lit "right") name = false := by
    simp only [pyIn, decide_eq_false_iff_not]
    exact not_cased_infix _ _ (by decide) name hnr
  have hlc3 : pyIn (lit "RIGHT") name = false := by
    simp only [pyIn, decide_eq_false_iff_not]
    exact not_cased_infix _ _ (by decide) name hnr
  rw [get_mirror_name, if_neg (by decide), if_pos rfl, hlc1, hlc2, hlc3]
  simp only [Bool.false_eq_true, if_false]
  by_cases hul : pyEndsWith (pyLower name) (lit "_r") = true
  · rw [hul]
    simp only [if_true]
    have hsuf : lit "_r" <:+ pyLower name := by
      simpa [pyEndsWith] using hul
    have hne : name ≠ [] := by
      intro h
      subst h
      have hl := hsuf.length_le
      rw [show (pyLower []).length = 0 from rfl] at hl
      exact absurd hl (by decide)
    have hsplit : name = name.dropLast ++ [name.getLast hne] :=
      (List.dropLast_append_getLast hne).symm
    have hlow_split : pyLower name =
        pyLower name.dropLast ++ [Char.toLower (name.getLast hne)] := by
      conv_lhs => rw [hsplit]
      rw [pyLower_append]
      rfl
    rw [hlow_split] at hsuf
    have hpair := suffix_snoc_pair _ '_' 'r' (by decide) _ _ hsuf
    have hq_ : ['_'] <:+ pyLower name.dropLast := hpair.2
    have hgld : name.getLastD ' ' = name.getLast hne := by
      conv_lhs => rw [hsplit]
      exact List.getLastD_concat _ _ _
    rw [hgld, show (lit "l" : PyStr) = ['l'] from by decide,
      show (lit "L" : PyStr) = ['L'] from by decide]
    by_cases hlow : (name.getLast hne).isLower
    · rw [if_pos hlow]
      refine ⟨append_singleton_ne_nil _ _, ?_⟩
      refine get_side_of_left _ ?_
      simp only [left_condition, Bool.or_eq_true]
      refine Or.inl (Or.inr ?_)
      simp only [pyEndsWith, decide_eq_true_eq]
      have hlr : pyLower (name.dropLast ++ ['l']) = pyLower name.dropLast ++ ['l'] := by
        rw [pyLower_append, show pyLower ['l'] = ['l'] from by decide]
      rw [hlr]
      obtain ⟨w, hw⟩ := hq_
      exact ⟨w, by rw [show (lit "_l" : PyStr) = ['_'] ++ ['l'] from by decide,
        ← List.append_assoc, hw]⟩
    · rw [if_neg hlow]
      refine ⟨append_singleton_ne_nil _ _, ?_⟩
      refine get_side_of_left _ ?_
      simp only [left_condition, Bool.or_eq_true]
      refine Or.inr ?_
      simp only [pyEndsWith, decide_eq_true_eq]
      exact ⟨name.dropLast, by rw [show (lit "L" : PyStr) = ['L'] from by decide]⟩
  · have hLs : pyEndsWith name (lit "R") = true := hsfx.resolve_left hul
    rw [eq_false_of_ne_true hul]
    simp only [Bool.false_eq_true, if_false]
    rw [hLs]
    simp only [if_true]
    have hsufL : lit "R" <:+ name := by
      simpa [pyEndsWith] using hLs
    obtain ⟨q0, hq0⟩ := hsufL
    have hdrop : name.dropLast = q0 := by
      rw [← hq0, show (lit "R" : PyStr) = ['R'] from by decide]
      exact List.dropLast_concat
    rw [hdrop, show (lit "L" : PyStr) = ['L'] from by decide]
    refine ⟨append_singleton_ne_nil _ _, ?_⟩
    refine get_side_of_left _ ?_
    simp only [left_condition, Bool.or_eq_true]
    refine Or.inr ?_
    simp only [pyEndsWith, decide_eq_true_eq]
    exact ⟨q0, by rw [show (lit "L" : PyStr) = ['L'] from by decide]⟩

/-- A name with an L suffix is classified L. -/
theorem get_side_suffix_L (name : PyStr)
    (hsfx : pyEndsWith (pyLower name) (lit "_l") = true ∨ pyEndsWith name (lit "L") = true) :
    get_side name = lit "L" := by
  refine get_side_of_left _ ?_
  simp only [left_condition, Bool.or_eq_true]
  rcases hsfx with h | h
  · exact Or.inl (Or.inr h)
  · exact Or.inr h

/-- A name with an R suffix and no `left` substring is classified R. -/
theorem get_side_suffix_R (name : PyStr)
    (hnl : ¬ lit "left" <:+: pyLower name)
    (hsfx : pyEndsWith (pyLower name) (lit "_r") = true ∨ pyEndsWith name (lit "R") = true) :
    get_side name = lit "R" := by
  rcases hsfx with h | h
  · have hsuf : lit "_r" <:+ pyLower name := by
      simpa [pyEndsWith] using h
    have hne : name ≠ [] := by
      intro heq
      subst heq
      have hl := hsuf.length_le
      rw [show (pyLower []).length = 0 from rfl] at hl
      exact absurd hl (by decide)
    have hsplit : name = name.dropLast ++ [name.getLast hne] :=
      (List.dropLast_append_getLast hne).symm
    have hlow_split : pyLower name =
        pyLower name.dropLast ++ [Char.toLower (name.getLast hne)] := by
      conv_lhs => rw [hsplit]
      rw [pyLower_append]
      rfl
    rw [hlow_split] at hsuf
    have hpair := suffix_snoc_pair _ '_' 'r' (by decide) _ _ hsuf
    have hnlq : ¬ lit "left" <:+: pyLower name.dropLast := by
      intro hq
      exact hnl (by
        rw [hlow_split]
        exact hq.trans (List.prefix_append _ _).isInfix)
    have hres := get_side_snoc_R name.dropLast (name.getLast hne) hpair.1.symm hnlq ?rc
    case rc =>
      rw [← hsplit]
      simp only [right_condition, Bool.or_eq_true]
      exact Or.inl (Or.inr h)
    rw [hsplit]
    exact hres
  · have hsufL : lit "R" <:+ name := by
      simpa [pyEndsWith] using h
    obtain ⟨q0, hq0⟩ := hsufL
    have hnlq0 : ¬ lit "left" <:+: pyLower q0 := by
      intro hq
      refine hnl ?_
      rw [← hq0, pyLower_append]
      exact hq.trans (List.prefix_append _ _).isInfix
    have hres := get_side_snoc_R q0 'R' (by decide) hnlq0 ?rc2
    case rc2 =>
      simp only [right_condition, Bool.or_eq_true]
      refine Or.inr ?_
      simp only [pyEndsWith, decide_eq_true_eq]
      exact ⟨q0, by rw [show (lit "R" : PyStr) = ['R'] from by decide]⟩
    rw [← hq0, show (lit "R" : PyStr) = ['R'] from by decide]
    exact hres
/-- A decomposition around a non-empty marker is non-empty. -/
theorem triple_ne_nil (a mid b : PyStr) (h : mid ≠ []) : a ++ mid ++ b ≠ [] := by
  intro heq
  have := congrArg List.length heq
  simp at this
  exact h (this.2.1)

/-- Claim C7, amended: get_mirror_name flips the side only for names
whose left/right marker is unambiguous.  (a) For a name with no `left`
substring (in any case) that is classified L by its `_l`/`L` suffix, the
mirror is non-empty and classified R; (b) for a name `a ++ mid ++ b`
containing exactly one case-variant left marker `mid` (no `left`
substring in the lowercased `a` or `b`) and not suffix-classified L, the
mirror replaces the marker and is classified R; (c) and (d) are the
analogous R-side statements — the R side additionally needs no `left`
substring anywhere, because `get_side` tests L first.  The
counterexample shows the claim fails without these conditions. -/
theorem mirror_name_opposite_side :
    (∀ name : PyStr,
      ¬ lit "left" <:+: pyLower name →
      (pyEndsWith (pyLower name) (lit "_l") = true ∨ pyEndsWith name (lit "L") = true) →
      get_side name = lit "L" ∧
      get_mirror_name (get_side name) name ≠ [] ∧
      get_side (get_mirror_name (get_side name) name) = lit "R") ∧
    (∀ a mid b : PyStr,
      (mid = lit "Left" ∨ mid = lit "left" ∨ mid = lit "LEFT") →
      ¬ lit "left" <:+: pyLower a → ¬ lit "left" <:+: pyLower b →
      ¬ lit "_l" <:+ pyLower (a ++ mid ++ b) → ¬ lit "L" <:+ (a ++ mid ++ b) →
      get_side (a ++ mid ++ b) = lit "L" ∧
      get_mirror_name (get_side (a ++ mid ++ b)) (a ++ mid ++ b) ≠ [] ∧
      get_side (get_mirror_name (get_side (a ++ mid ++ b)) (a ++ mid ++ b)) = lit "R") ∧
    (∀ name : PyStr,
      ¬ lit "left" <:+: pyLower name → ¬ lit "right" <:+: pyLower name →
      (pyEndsWith (pyLower name) (lit "_r") = true ∨ pyEndsWith name (lit "R") = true) →
      get_side name = lit "R" ∧
      get_mirror_name (get_side name) name ≠ [] ∧
      get_side (get_mirror_name (get_side name) name) = lit "L") ∧
    (∀ a mid b : PyStr,
      (mid = lit "Right" ∨ mid = lit "right" ∨ mid = lit "RIGHT") →
      ¬ lit "left" <:+: pyLower a → ¬ lit "left" <:+: pyLower b →
      ¬ lit "right" <:+: pyLower a → ¬ lit "right" <:+: pyLower b →
      ¬ lit "_l" <:+ pyLower (a ++ mid ++ b) → ¬ lit "L" <:+ (a ++ mid ++ b) →
      get_side (a ++ mid ++ b) = lit "R" ∧
      get_mirror_name (get_side (a ++ mid ++ b)) (a ++ mid ++ b) ≠ [] ∧
      get_side (get_mirror_name (get_side (a ++ mid ++ b)) (a ++ mid ++ b)) = lit "L") := by
  refine ⟨?_, ?_, ?_, ?_⟩
  · intro name hnl hsfx
    have hside := get_side_suffix_L name hsfx
    rw [hside]
    exact ⟨rfl, mirror_suffix_L name hnl hsfx⟩
  · intro a mid b hm hla hlb hsl hL
    have hside : get_side (a ++ mid ++ b) = lit "L" := by
      refine get_side_of_left _ ?_
      simp only [left_condition, Bool.or_eq_true, pyIn, decide_eq_true_eq]
      refine Or.inl (Or.inl ?_)
      rw [pyLower_append, pyLower_append]
      rcases hm with rfl | rfl | rfl
      · rw [show pyLower (lit "Left") = lit "left" from by decide]
        exact List.infix_append _ _ _
      · rw [show pyLower (lit "left") = lit "left" from by decide]
        exact List.infix_append _ _ _
      · rw [show pyLower (lit "LEFT") = lit "left" from by decide]
        exact List.infix_append _ _ _
    rw [hside]
    refine ⟨rfl, ?_⟩
    have hval := get_mirror_triple_L a mid b hm hla hlb
    rcases hm with rfl | rfl | rfl
    · rw [if_pos rfl] at hval
      rw [hval]
      have hslM : ¬ lit "_l" <:+ pyLower (a ++ lit "Right" ++ b) := by
        rw [pyLower_append, pyLower_append, show pyLower (lit "Right") = lit "right" from
          by decide]
        refine not_suffix_triple _ _ _ _ ?_ ?_ (by decide)
        · intro hsb
          refine hsl ?_
          rw [pyLower_append, pyLower_append]
          exact hsb.trans (List.suffix_append _ _)
        · intro m h1 h2
          have h2' : m ≤ 2 := h2
          interval_cases m <;> decide
      have hLM : ¬ lit "L" <:+ (a ++ lit "Right" ++ b) := by
        refine not_suffix_triple _ _ _ _ ?_ ?_ (by decide)
        · intro hsb
          exact hL (hsb.trans (List.suffix_append _ _))
        · intro m h1 h2
          have h2' : m ≤ 1 := h2
          interval_cases m <;> decide
      exact ⟨triple_ne_nil _ _ _ (by decide),
        get_side_triple_R a (lit "Right") b (by decide) hla hlb hslM hLM⟩
    · rw [if_neg (by decide), if_pos rfl] at hval
      rw [hval]
      have hslM : ¬ lit "_l" <:+ pyLower (a ++ lit "right" ++ b) := by
        rw [pyLower_append, pyLower_append, show pyLower (lit "right") = lit "right" from
          by decide]
        refine not_suffix_triple _ _ _ _ ?_ ?_ (by decide)
        · intro hsb
          refine hsl ?_
          rw [pyLower_append, pyLower_append]
          exact hsb.trans (List.suffix_append _ _)
        · intro m h1 h2
          have h2' : m ≤ 2 := h2
          interval_cases m <;> decide
      have hLM : ¬ lit "L" <:+ (a ++ lit "right" ++ b) := by
        refine not_suffix_triple _ _ _ _ ?_ ?_ (by decide)
        · intro hsb
          exact hL (hsb.trans (List.suffix_append _ _))
        · intro m h1 h2
          have h2' : m ≤ 1 := h2
          interval_cases m <;> decide
      exact ⟨triple_ne_nil _ _ _ (by decide),
        get_side_triple_R a (lit "right") b (by decide) hla hlb hslM hLM⟩
    · rw [if_neg (by decide), if_neg (by decide)] at hval
      rw [hval]
      have hslM : ¬ lit "_l" <:+ pyLower (a ++ lit "RIGHT" ++ b) := by
        rw [pyLower_append, pyLower_append, show pyLower (lit "RIGHT") = lit "right" from
          by decide]
        refine not_suffix_triple _ _ _ _ ?_ ?_ (by decide)
        · intro hsb
          refine hsl ?_
          rw [pyLower_append, pyLower_append]
          exact hsb.trans (List.suffix_append _ _)
        · intro m h1 h2
          have h2' : m ≤ 2 := h2
          interval_cases m <;> decide
      have hLM : ¬ lit "L" <:+ (a ++ lit "RIGHT" ++ b) := by
        refine not_suffix_triple _ _ _ _ ?_ ?_ (by decide)
        · intro hsb
          exact hL (hsb.trans (List.suffix_append _ _))
        · intro m h1 h2
          have h2' : m ≤ 1 := h2
          interval_cases m <;> decide
      exact ⟨triple_ne_nil _ _ _ (by decide),
        get_side_triple_R a (lit "RIGHT") b (by decide) hla hlb hslM hLM⟩
  · intro name hnl hnr hsfx
    have hside := get_side_suffix_R name hnl hsfx
    rw [hside]
    exact ⟨rfl, mirror_suffix_R name hnr hsfx⟩
  · intro a mid b hm hla hlb hra hrb hsl hL
    have hlowmid : pyLower mid = lit "right" := by
      rcases hm with rfl | rfl | rfl <;> decide
    have hside : get_side (a ++ mid ++ b) = lit "R" :=
      get_side_triple_R a mid b hlowmid hla hlb hsl hL
    rw [hside]
    refine ⟨rfl, ?_⟩
    have hval := get_mirror_triple_R a mid b hm hra hrb
    have hclassL : ∀ newL : PyStr, pyLower newL = lit "left" → newL ≠ [] →
        get_mirror_name (lit "R") (a ++ mid ++ b) = a ++ newL ++ b →
        get_mirror_name (lit "R") (a ++ mid ++ b) ≠ [] ∧
        get_side (get_mirror_name (lit "R") (a ++ mid ++ b)) = lit "L" := by
      intro newL hlownew hnenew hveq
      rw [hveq]
      refine ⟨triple_ne_nil _ _ _ hnenew, ?_⟩
      refine get_side_of_left _ ?_
      simp only [left_condition, Bool.or_eq_true, pyIn, decide_eq_true_eq]
      refine Or.inl (Or.inl ?_)
      rw [pyLower_append, pyLower_append, hlownew]
      exact List.infix_append _ _ _
    rcases hm with rfl | rfl | rfl
    · rw [if_pos rfl] at hval
      exact hclassL (lit "Left") (by decide) (by decide) hval
    · rw [if_neg (by decide), if_pos rfl] at hval
      exact hclassL (lit "left") (by decide) (by decide) hval
    · rw [if_neg (by decide), if_neg (by decide)] at hval
      exact hclassL (lit "LEFT") (by decide) (by decide) hval
/-- Counterexample to claim C7 as stated: `LeFt` is classified L (its
lowercase contains `left`) but matches no replacement or suffix rule, so
its mirror is the empty string; `left_l` is classified L and its mirror
`right_l` is again classified L (the `_l` suffix wins over the `right`
substring); `abcLeftL` is classified L and its mirror `abcRightL` is
again classified L (the trailing `L` wins). -/
theorem mirror_name_not_always_opposite :
    (get_side (lit "LeFt") = lit "L" ∧
      get_mirror_name (get_side (lit "LeFt")) (lit "LeFt") = []) ∧
    (get_side (lit "left_l") = lit "L" ∧
      get_mirror_name (get_side (lit "left_l")) (lit "left_l") = lit "right_l" ∧
      get_side (lit "right_l") = lit "L") ∧
    (get_side (lit "abcLeftL") = lit "L" ∧
      get_mirror_name (get_side (lit "abcLeftL")) (lit "abcLeftL") = lit "abcRightL" ∧
      get_side (lit "abcRightL") = lit "L") := by
  refine ⟨⟨by decide, by decide⟩, ⟨by decide, ?_, by decide⟩, ⟨by decide, ?_, by decide⟩⟩
  · rw [show get_side (lit "left_l") = lit "L" from by decide]
    rw [get_mirror_name, if_pos rfl,
      show pyIn (lit "Left") (lit "left_l") = false from by decide]
    simp only [Bool.false_eq_true, if_false]
    rw [show pyIn (lit "left") (lit "left_l") = true from by decide]
    simp only [if_true]
    rw [show (lit "left_l" : PyStr) = ([] : PyStr) ++ lit "left" ++ lit "_l" from by decide]
    rw [replace_marker _ _ _ _ (by decide) (by decide) (by decide) ?hc1]
    case hc1 =>
      intro k h1 h2
      have h2' : k < 4 := h2
      interval_cases k <;> decide
    decide
  · rw [show get_side (lit "abcLeftL") = lit "L" from by decide]
    rw [get_mirror_name, if_pos rfl,
      show pyIn (lit "Left") (lit "abcLeftL") = true from by decide]
    simp only [if_true]
    rw [show (lit "abcLeftL" : PyStr) = lit "abc" ++ lit "Left" ++ lit "L" from by decide]
    rw [replace_marker _ _ _ _ (by decide) (by decide) (by decide) ?hc2]
    case hc2 =>
      intro k h1 h2
      have h2' : k < 4 := h2
      interval_cases k <;> decide
    decide

/-- Witness for C7: one concrete name per case of the amended theorem. -/
theorem mirror_name_opposite_side_witness :
    (get_side (lit "blinkL") = lit "L" ∧
      get_mirror_name (get_side (lit "blinkL")) (lit "blinkL") ≠ [] ∧
      get_side (get_mirror_name (get_side (lit "blinkL")) (lit "blinkL")) = lit "R") ∧
    (get_side (lit "eye" ++ lit "Left" ++ lit "Top") = lit "L" ∧
      get_mirror_name (get_side (lit "eye" ++ lit "Left" ++ lit "Top"))
        (lit "eye" ++ lit "Left" ++ lit "Top") ≠ [] ∧
      get_side (get_mirror_name (get_side (lit "eye" ++ lit "Left" ++ lit "Top"))
        (lit "eye" ++ lit "Left" ++ lit "Top")) = lit "R") ∧
    (get_side (lit "blink_r") = lit "R" ∧
      get_mirror_name (get_side (lit "blink_r")) (lit "blink_r") ≠ [] ∧
      get_side (get_mirror_name (get_side (lit "blink_r")) (lit "blink_r")) = lit "L") ∧
    (get_side (lit "eye" ++ lit "Right" ++ lit "Top") = lit "R" ∧
      get_mirror_name (get_side (lit "eye" ++ lit "Right" ++ lit "Top"))
        (lit "eye" ++ lit "Right" ++ lit "Top") ≠ [] ∧
      get_side (get_mirror_name (get_side (lit "eye" ++ lit "Right" ++ lit "Top"))
        (lit "eye" ++ lit "Right" ++ lit "Top")) = lit "L") :=
  ⟨mirror_name_opposite_side.1 (lit "blinkL") (by decide) (Or.inr (by decide)),
   mirror_name_opposite_side.2.1 (lit "eye") (lit "Left") (lit "Top") (Or.inl rfl)
     (by decide) (by decide) (by decide) (by decide),
   mirror_name_opposite_side.2.2.1 (lit "blink_r") (by decide) (by decide)
     (Or.inl (by decide)),
   mirror_name_opposite_side.2.2.2 (lit "eye") (lit "Right") (lit "Top") (Or.inl rfl)
     (by decide) (by decide) (by decide) (by decide) (by decide) (by decide)⟩

/-- Upserting a fresh key appends. -/
theorem upsertAssoc_new {κ β : Type} [DecidableEq κ] (key : κ) (v : β)
    (acc : List (κ × β)) (h : ∀ p ∈ acc, p.1 ≠ key) :
    upsertAssoc key v acc = acc ++ [(key, v)] := by
  induction acc with
  | nil => rfl
  | cons p rest ih =>
    obtain ⟨k, w⟩ := p
    rw [upsertAssoc, if_neg (h (k, w) (List.mem_cons_self _ _))]
    rw [ih (fun q hq => h q (List.mem_cons_of_mem _ hq))]
    rfl

/-- With pairwise-distinct names the exporter’s name-keyed fold lists
every expression once, in order. -/
theorem export_list_map (l : List ExpressionItem) :
    ∀ acc : List (PyStr × ExpressionData),
      (listNames l).Nodup →
      (∀ p ∈ acc, ∀ e ∈ l, p.1 ≠ e.name) →
      l.foldl (fun acc exp => upsertAssoc exp.name (export_expression_entry exp) acc) acc =
        acc ++ l.map (fun e => (e.name, export_expression_entry e)) := by
  induction l with
  | nil =>
    intro acc _ _
    simp
  | cons e rest ih =>
    intro acc hnodup hdisj
    have hhead : e.name ∉ listNames rest ∧ (listNames rest).Nodup := by
      simpa [listNames] using hnodup
    simp only [List.foldl_cons]
    rw [upsertAssoc_new _ _ _ (fun p hp => hdisj p hp e (List.mem_cons_self _ _))]
    rw [ih (acc ++ [(e.name, export_expression_entry e)]) hhead.2 ?dj]
    · simp
    case dj =>
      intro p hp e' he'
      rcases List.mem_append.mp hp with h1 | h1
      · exact hdisj p h1 e' (List.mem_cons_of_mem _ he')
      · simp only [List.mem_singleton] at h1
        subst h1
        intro heq
        apply hhead.1
        rw [show e.name = (fun x : ExpressionItem => x.name) e' from heq]
        exact List.mem_map_of_mem _ he'

/-- Importing the exported entries reproduces names (in order), side,
mirror name and procedural flag of every expression — under distinct
names, non-empty sides and no procedural eye-blink override. -/
theorem imported_of_export (l : List ExpressionItem) :
    ∀ l0 : List ExpressionItem,
      (listNames l0 ++ listNames l).Nodup →
      (∀ e ∈ l, e.side ≠ []) →
      (∀ e ∈ l, (e.name = lit "eyeBlinkLeft" ∨ e.name = lit "eyeBlinkRight") →
        e.procedural ≠ lit "NONE") →
      (importedList (l.map (fun e => (e.name, export_expression_entry e))) l0).map
          (fun e => (e.name, e.side, e.mirror_name, e.procedural)) =
        l0.map (fun e => (e.name, e.side, e.mirror_name, e.procedural)) ++
        l.map (fun e => (e.name, e.side, e.mirror_name, e.procedural)) := by
  induction l with
  | nil =>
    intro l0 _ _ _
    simp [importedList]
  | cons e rest ih =>
    intro l0 hnd hsides hblink
    have hnotin : e.name ∉ listNames l0 := by
      intro hin
      rw [List.nodup_append] at hnd
      exact hnd.2.2 hin (by simp [listNames])
    have hitem : importedExpressionItem l0 (e.name, export_expression_entry e) =
        { name := e.name, side := e.side, frame := ((l0.length : Int) + 1) * 10
          mirror_name := e.mirror_name, procedural := e.procedural } := by
      simp only [importedExpressionItem, export_expression_entry,
        get_expression_name_double_entries]
      rw [freshNameGo_id _ _ _ hnotin]
      rw [if_neg (hsides e (List.mem_cons_self _ _))]
      rw [if_neg (fun hc => hblink e (List.mem_cons_self _ _) hc.1 hc.2)]
    have hstep := ih (l0 ++ [importedExpressionItem l0 (e.name, export_expression_entry e)])
      ?nd2 (fun e' he' => hsides e' (List.mem_cons_of_mem _ he'))
      (fun e' he' => hblink e' (List.mem_cons_of_mem _ he'))
    case nd2 =>
      rw [show listNames (l0 ++ [importedExpressionItem l0 (e.name, export_expression_entry e)]) =
          listNames l0 ++ [e.name] from by rw [hitem]; simp [listNames]]
      rw [List.append_assoc]
      simpa [listNames] using hnd
    simp only [List.map_cons]
    rw [show importedList ((e.name, export_expression_entry e) ::
        rest.map (fun e => (e.name, export_expression_entry e))) l0 =
      importedList (rest.map (fun e => (e.name, export_expression_entry e)))
        (l0 ++ [importedExpressionItem l0 (e.name, export_expression_entry e)]) from rfl]
    rw [hstep, hitem]
    simp
/-- Claim C5, amended: exporting and then importing with the OVERWRITE
load method reproduces the expression list — the same names in the same
order, each with the same side, mirror_name and procedural value —
provided the expression names are pairwise distinct (the exported JSON
object is keyed by name), every side is non-empty (the importer turns an
empty side into N), and no expression named eyeBlinkLeft/eyeBlinkRight
carries procedural NONE (the exporter rewrites that to EYEBLINKS).  The
counterexample shows each proviso is necessary. -/
theorem export_import_roundtrip (env env2 : Env) (props : AppendActionProps)
    (s s2 : SceneState) (file : FaceFile)
    (hnodup : namesNodup s.expression_list)
    (hsides : ∀ e ∈ s.expression_list, e.side ≠ [])
    (hblink : ∀ e ∈ s.expression_list,
      (e.name = lit "eyeBlinkLeft" ∨ e.name = lit "eyeBlinkRight") →
      e.procedural ≠ lit "NONE")
    (hcp : props.load_custom_path = false)
    (hlm : props.load_method = lit "OVERWRITE")
    (hfile : (FACEIT_OT_ExportExpressionsToJson_execute env s).2.2 = some file) :
    ((FACEIT_OT_AppendActionToFaceitRig_execute env2 props file s2).2.expression_list).map
        (fun e => (e.name, e.side, e.mirror_name, e.procedural)) =
      s.expression_list.map (fun e => (e.name, e.side, e.mirror_name, e.procedural)) := by
  have hexp : file.expressions = export_expression_list s.expression_list := by
    rw [FACEIT_OT_ExportExpressionsToJson_execute] at hfile
    cases hrig : s.rig_action with
    | none =>
      rw [hrig] at hfile
      exact Option.noConfusion hfile
    | some act =>
      rw [hrig] at hfile
      have h2 := Option.some.inj hfile
      rw [← h2]
  have hcond : (if props.load_method = lit "APPEND" ∧
      (s2.expression_list = [] ∨ s2.shape_action = none ∨ s2.ow_action = none) then
      lit "OVERWRITE" else props.load_method) = lit "OVERWRITE" := by
    split
    · rfl
    · exact hlm
  have hlist : (FACEIT_OT_AppendActionToFaceitRig_execute env2 props file
      s2).2.expression_list = importedList file.expressions [] := by
    rw [FACEIT_OT_AppendActionToFaceitRig_execute, if_neg (by simp [hcp]),
      appendActionBody_list, if_pos hcond]
  rw [hlist, hexp, export_expression_list,
    export_list_map s.expression_list [] hnodup (by simp)]
  rw [List.nil_append]
  rw [imported_of_export s.expression_list [] (by simpa using hnodup) hsides hblink]
  simp

/-- Counterexample to claim C5 as stated: an eyeBlinkLeft expression
with procedural NONE comes back with procedural EYEBLINKS; two
expressions sharing a name collapse into one (the JSON object is keyed
by name); an empty side comes back as N. -/
theorem roundtrip_not_exact :
    (∃ file, (FACEIT_OT_ExportExpressionsToJson_execute sampleEnv blinkState).2.2 = some file ∧
      (FACEIT_OT_AppendActionToFaceitRig_execute sampleEnv sampleAppendProps file
          emptyState).2.expression_list.map (fun e => e.procedural) = [lit "EYEBLINKS"] ∧
      blinkState.expression_list.map (fun e => e.procedural) = [lit "NONE"]) ∧
    (∃ file, (FACEIT_OT_ExportExpressionsToJson_execute sampleEnv dupState).2.2 = some file ∧
      (FACEIT_OT_AppendActionToFaceitRig_execute sampleEnv sampleAppendProps file
          emptyState).2.expression_list.length = 1 ∧
      dupState.expression_list.length = 2) ∧
    (∃ file, (FACEIT_OT_ExportExpressionsToJson_execute sampleEnv sideState).2.2 = some file ∧
      (FACEIT_OT_AppendActionToFaceitRig_execute sampleEnv sampleAppendProps file
          emptyState).2.expression_list.map (fun e => e.side) = [lit "N"] ∧
      sideState.expression_list.map (fun e => e.side) = [([] : PyStr)]) :=
  ⟨⟨_, rfl, by decide, by decide⟩, ⟨_, rfl, by decide, by decide⟩,
   ⟨_, rfl, by decide, by decide⟩⟩

/-- Witness for C5: the two-expression `roundState` exports to
`sampleFaceFile`, and importing it reproduces the list. -/
theorem export_import_roundtrip_witness :
    ((FACEIT_OT_AppendActionToFaceitRig_execute sampleEnv sampleAppendProps sampleFaceFile
        emptyState).2.expression_list).map
        (fun e => (e.name, e.side, e.mirror_name, e.procedural)) =
      roundState.expression_list.map (fun e => (e.name, e.side, e.mirror_name, e.procedural)) :=
  export_import_roundtrip sampleEnv sampleEnv sampleAppendProps roundState emptyState
    sampleFaceFile
    (by simp only [namesNodup, listNames]; decide)
    (by decide) (by decide) rfl rfl (by decide)

end FaceIt
